import Mathlib

/-!
Verification development for the rust-memory-check analysis core.

This file gives a shallow embedding, in Lean, of the pointer-flow-graph
(PFG) construction, the worklist propagation engine, the reachability
oracle, the UAF/DF bug detectors and the result merger of the repository
(`src/core/analysis.rs`, `src/core/pfg.rs`, `src/core/check.rs`,
`src/core/utils.rs`, `src/core/mod.rs`, `src/bin/mc.rs`), together with
theorems settling the specification claims about them.

Modelling conventions:
* rustc identifiers (`DefId`, `Local`, `BasicBlock`, spans) are opaque in
  the source and are modelled as `Nat`.
* Rust `HashMap`s are modelled as association lists; `HashSet`s as
  duplicate-free-by-insertion lists.  Iteration order of a hash container
  is unspecified in Rust; the list order is the fixed order this model
  uses.
* Rust functions whose recursion is bounded by visited sets or by
  monotone state (DFS reachability, the two worklist loops) take an
  explicit fuel argument; running out of fuel yields the conservative
  answer (`false` / the current state / `none`).
* `unwrap()` on lookups that the analysis guarantees to succeed is
  modelled by an `Option` match whose `none` branch returns a neutral
  value; the relevant claims carry the success of the lookup as a
  hypothesis or prove it as an invariant.
* Type information queried from `rustc_middle::ty` is abstracted into an
  environment `Env` (the type of a place, callee IR creation, the
  `DefId` pretty-name), exactly the data the analysis reads from `tcx`.
-/

/-! ## Identifiers (src/core/mod.rs) -/

abbrev DefId := Nat
abbrev LocalId := Nat
abbrev BasicBlockId := Nat
abbrev ProjectionId := Nat
abbrev Span := Nat

/-- MIR place projection elements (the subset the analysis matches on). -/
inductive PlaceElem where
  | deref : PlaceElem
  | field (idx : Nat) : PlaceElem
  | index : PlaceElem
  | downcast (variant : Nat) : PlaceElem
deriving DecidableEq, Repr

/-- A MIR place: a local plus a projection path.  (`local` is a Lean
keyword, hence the field name `localId`.) -/
structure Place where
  localId : LocalId
  projection : List PlaceElem
deriving DecidableEq, Repr

/-- The slice of `rustc_middle::ty::Ty` the analysis inspects:
`is_unsafe_ptr`, `is_ref`, `is_unit`. -/
inductive Ty where
  | unit : Ty
  | rawPtr : Ty
  | refTy : Ty
  | other : Ty
deriving DecidableEq, Repr

def Ty.isUnsafePtr : Ty → Bool
  | Ty.rawPtr => true
  | _ => false

def Ty.isRef : Ty → Bool
  | Ty.refTy => true
  | _ => false

def Ty.isUnit : Ty → Bool
  | Ty.unit => true
  | _ => false

structure GlobalLocalId where
  defId : DefId
  localId : LocalId
deriving DecidableEq, Repr

structure GlobalBasicBlockId where
  defId : DefId
  bbId : BasicBlockId
deriving DecidableEq, Repr

structure GlobalProjectionId where
  gLocalId : GlobalLocalId
  projectionId : ProjectionId
deriving DecidableEq, Repr

/-- `DropObjectId` wraps a `GlobalProjectionId` (the cell at which the
object was first seen being dropped); the wrapping is modelled by an
alias, matching the `From`/`Into` pair in the source. -/
abbrev DropObjectId := GlobalProjectionId

/-- `CallerContext`: the list of distinguishing call-site blocks (empty
for an entry, a single site for a callee). -/
abbrev CallerContext := List GlobalBasicBlockId

structure CtxtSenCallId where
  defId : DefId
  callerContext : CallerContext
deriving DecidableEq, Repr

structure CtxtSenSpanInfo where
  defId : DefId
  basicBlockId : BasicBlockId
  span : Span
  callerContext : CallerContext
deriving DecidableEq, Repr

/-! ## IR model (src/core/mod.rs, produced by src/core/cfg.rs) -/

inductive OpKind where
  | copy : OpKind
  | move : OpKind
  | ref : OpKind
  | addressOf : OpKind
deriving DecidableEq, Repr

inductive RvalKind where
  | constant : RvalKind
  | addressed (place : Place) : RvalKind
deriving DecidableEq, Repr

structure AssignmentInfo where
  lvalue : Place
  rvalue : RvalKind
  statSpan : Span
  op : OpKind
deriving DecidableEq, Repr

inductive Operand where
  | move (place : Place) : Operand
  | copy (place : Place) : Operand
  | constant : Operand
deriving DecidableEq, Repr

/-- The terminator kinds the analysis distinguishes: a destructor
invocation on a place, or anything else. -/
inductive TerminatorKind where
  | drop (place : Place) : TerminatorKind
  | other : TerminatorKind
deriving DecidableEq, Repr

structure Terminator where
  kind : TerminatorKind
  span : Span
deriving DecidableEq, Repr

structure BasicBlockInfo where
  id : BasicBlockId
  isCleanup : Bool
  successors : List BasicBlockId
  assignmentInfos : List AssignmentInfo
  terminator : Terminator
deriving DecidableEq, Repr

structure LocalInfo where
  id : LocalId
  needDrop : Bool
  ty : Ty
  varName : Option String
  declSpan : Span
deriving DecidableEq, Repr

structure CallInfo where
  calleeDefId : DefId
  callerBbId : BasicBlockId
  args : List Operand
  destination : Place
  span : Span
deriving DecidableEq, Repr

structure ControlFlowGraph where
  defId : DefId
  localInfos : List (LocalId × LocalInfo)
  basicBlockInfos : List (BasicBlockId × BasicBlockInfo)
  callInfos : List (BasicBlockId × CallInfo)
deriving DecidableEq, Repr

/-! ## Association-list maps and list sets (model of HashMap / HashSet) -/

/-- Lookup in an association list (model of `HashMap::get`). -/
def lookupA {α β : Type} [DecidableEq α] : List (α × β) → α → Option β
  | [], _ => none
  | p :: l, a => if p.1 = a then some p.2 else lookupA l a

/-- Pointwise update of all entries with the given key (model of
`HashMap::get_mut` followed by a mutation; keys are unique by
construction, and an absent key — a panic in the source — leaves the map
unchanged). -/
def updateA {α β : Type} [DecidableEq α] (l : List (α × β)) (a : α) (g : β → β) :
    List (α × β) :=
  l.map (fun p => if p.1 = a then (p.1, g p.2) else p)

/-- Insert-or-replace (model of `HashMap::insert`). -/
def insertKV {α β : Type} [DecidableEq α] (l : List (α × β)) (a : α) (b : β) :
    List (α × β) :=
  if (lookupA l a).isSome then updateA l a (fun _ => b) else l ++ [(a, b)]

/-- Insert into a list-set (model of `HashSet::insert`). -/
def insertSet {α : Type} [DecidableEq α] (l : List α) (a : α) : List α :=
  if a ∈ l then l else l ++ [a]

/-- Union a list of elements into a list-set (model of `HashSet::extend`). -/
def extendSet {α : Type} [DecidableEq α] (l m : List α) : List α :=
  m.foldl insertSet l

/-- Set difference (model of `HashSet::difference`). -/
def diffSet {α : Type} [DecidableEq α] (l m : List α) : List α :=
  l.filter (fun a => a ∉ m)

/-! ## Pointer flow graph (src/core/pfg.rs) -/

structure ProjectionNeighborInfo where
  neighborId : GlobalProjectionId
  spanInfo : CtxtSenSpanInfo
deriving DecidableEq, Repr

/-- A recorded deref edge: the flow edge `(fromId, toId)` plus flags
saying which side's access path dereferences. -/
structure DerefEdgeInfo where
  fromId : GlobalProjectionId
  toId : GlobalProjectionId
  isDeref : Bool × Bool
deriving DecidableEq, Repr

structure ProjectionNode where
  id : ProjectionId
  callerContext : CallerContext
  projection : List PlaceElem
  pointsTo : List DropObjectId
  csDropSpans : List CtxtSenSpanInfo
  neighbors : List (GlobalProjectionId × ProjectionNeighborInfo)
deriving DecidableEq, Repr

/-- `ProjectionNode::is_prefix_of`: the node's projection is an initial
segment of `proj`. -/
def projIsPrefixOfB : List PlaceElem → List PlaceElem → Bool
  | [], _ => true
  | _ :: _, [] => false
  | a :: l, b :: m => if a = b then projIsPrefixOfB l m else false

structure PfgNode where
  gid : GlobalLocalId
  projectionNodes : List (ProjectionId × ProjectionNode)
deriving DecidableEq, Repr

/-- `PfgNode::try_get_projection_id`: find the projection node with this
exact projection and caller context. -/
def PfgNode.tryGetProjectionId (node : PfgNode) (proj : List PlaceElem)
    (cc : CallerContext) : Option ProjectionId :=
  (node.projectionNodes.find?
    (fun p => decide (p.2.projection = proj ∧ p.2.callerContext = cc))).map (·.1)

/-- `PfgNode::add_projection`: fresh id = current size. -/
def PfgNode.addProjection (node : PfgNode) (proj : List PlaceElem)
    (cc : CallerContext) : ProjectionId × PfgNode :=
  let id := node.projectionNodes.length
  let pns := node.projectionNodes ++ [(id, ProjectionNode.mk id cc proj [] [] [])]
  (id, { node with projectionNodes := pns })

structure PointerFlowGraph where
  nodes : List (GlobalLocalId × PfgNode)
  derefEdges : List DerefEdgeInfo
  multiDropObjects : List DropObjectId
deriving DecidableEq, Repr

def PointerFlowGraph.empty : PointerFlowGraph := ⟨[], [], []⟩

def PointerFlowGraph.getProjectionNode? (pfg : PointerFlowGraph)
    (g : GlobalProjectionId) : Option ProjectionNode :=
  (lookupA pfg.nodes g.gLocalId).bind
    (fun n => lookupA n.projectionNodes g.projectionId)

/-- Points-to set of a cell (empty for cells not in the graph). -/
def ptsOf (pfg : PointerFlowGraph) (g : GlobalProjectionId) : List DropObjectId :=
  match pfg.getProjectionNode? g with
  | some pn => pn.pointsTo
  | none => []

/-- Destructor sites recorded at a cell. -/
def dropSpansOf (pfg : PointerFlowGraph) (g : GlobalProjectionId) :
    List CtxtSenSpanInfo :=
  match pfg.getProjectionNode? g with
  | some pn => pn.csDropSpans
  | none => []

/-- Update the projection node at `g` in place. -/
def updateProjNode (pfg : PointerFlowGraph) (g : GlobalProjectionId)
    (f : ProjectionNode → ProjectionNode) : PointerFlowGraph :=
  let nodes := updateA pfg.nodes g.gLocalId
    (fun n => { n with projectionNodes := updateA n.projectionNodes g.projectionId f })
  { pfg with nodes := nodes }

/-- The get-or-create step on a `PfgNode`'s projection table (the inner
`match` of `add_or_update_virtual_node`). -/
def PfgNode.getOrAddProjection (node : PfgNode) (proj : List PlaceElem)
    (cc : CallerContext) : ProjectionId × PfgNode :=
  match node.tryGetProjectionId proj cc with
  | some id => (id, node)
  | none => node.addProjection proj cc

/-- Append a drop span to the projection node `projId`, if one is given
(the trailing `if let` of `add_or_update_virtual_node`). -/
def PfgNode.addDropSpanTo (node : PfgNode) (projId : ProjectionId) :
    Option CtxtSenSpanInfo → PfgNode
  | some ds =>
    let pns := updateA node.projectionNodes projId
      (fun pn => { pn with csDropSpans := pn.csDropSpans ++ [ds] })
    { node with projectionNodes := pns }
  | none => node

/-- `PointerFlowGraph::add_or_update_virtual_node`: get-or-create the
`PfgNode` for the local, get-or-create the projection node for this exact
projection and context, then record the drop span if given. -/
def PointerFlowGraph.addOrUpdateVirtualNode (pfg : PointerFlowGraph)
    (callId : CtxtSenCallId) (localId : LocalId) (projection : List PlaceElem)
    (dropSpan : Option CtxtSenSpanInfo) : PointerFlowGraph × GlobalProjectionId :=
  let gLocalId : GlobalLocalId := ⟨callId.defId, localId⟩
  let pfg :=
    if (lookupA pfg.nodes gLocalId).isSome then pfg
    else { pfg with nodes := pfg.nodes ++ [(gLocalId, PfgNode.mk gLocalId [])] }
  match lookupA pfg.nodes gLocalId with
  | none => (pfg, ⟨gLocalId, 0⟩)
  | some node =>
    let projNode := node.getOrAddProjection projection callId.callerContext
    let node := projNode.2.addDropSpanTo projNode.1 dropSpan
    ({ pfg with nodes := insertKV pfg.nodes gLocalId node }, ⟨gLocalId, projNode.1⟩)

/-- `PointerFlowGraph::add_or_update_node`. -/
def PointerFlowGraph.addOrUpdateNode (pfg : PointerFlowGraph)
    (callId : CtxtSenCallId) (place : Place) (dropSpan : Option CtxtSenSpanInfo) :
    PointerFlowGraph × GlobalProjectionId :=
  pfg.addOrUpdateVirtualNode callId place.localId place.projection dropSpan

def PointerFlowGraph.hasGlobalLocal (pfg : PointerFlowGraph)
    (g : GlobalLocalId) : Bool :=
  (lookupA pfg.nodes g).isSome

def PointerFlowGraph.hasGlobalProjection (pfg : PointerFlowGraph)
    (g : GlobalProjectionId) : Bool :=
  (pfg.getProjectionNode? g).isSome

/-- `PointerFlowGraph::has_edge`. -/
def PointerFlowGraph.hasEdge (pfg : PointerFlowGraph)
    (fromId toId : GlobalProjectionId) : Bool :=
  if !pfg.hasGlobalProjection fromId then false
  else if !pfg.hasGlobalLocal toId.gLocalId then false
  else
    match pfg.getProjectionNode? fromId with
    | some fromNode => (lookupA fromNode.neighbors toId).isSome
    | none => false

/-- `PointerFlowGraph::add_edge`: store the neighbor, then record a deref
edge when either endpoint's projection contains a `Deref`. -/
def PointerFlowGraph.addEdge (pfg : PointerFlowGraph)
    (fromId toId : GlobalProjectionId) (spanInfo : CtxtSenSpanInfo) :
    PointerFlowGraph :=
  let pfg := updateProjNode pfg fromId
    (fun pn => { pn with neighbors := insertKV pn.neighbors toId ⟨toId, spanInfo⟩ })
  match pfg.getProjectionNode? fromId, pfg.getProjectionNode? toId with
  | some fromNode, some toNode =>
    let fromIsDeref := decide (PlaceElem.deref ∈ fromNode.projection)
    let toIsDeref := decide (PlaceElem.deref ∈ toNode.projection)
    if fromIsDeref || toIsDeref then
      let des := insertSet pfg.derefEdges ⟨fromId, toId, (fromIsDeref, toIsDeref)⟩
      { pfg with derefEdges := des }
    else pfg
  | _, _ => pfg

/-! ## Analysis environment and worklist state (src/core/analysis.rs) -/

/-- The data the analysis reads from `rustc` (`tcx`):
`get_ty_from_place`, `try_create_cfg` for lazily materialized callees,
and the joined pretty-name of a `DefId` (`parse_def_id(..).join("::")`). -/
structure Env where
  tyOfPlace : DefId → Place → Ty
  tryCreateCfg : DefId → Option ControlFlowGraph
  defName : DefId → String

/-- `is_ptr_copy`: the place's static type is a raw pointer or a
reference, or its projection already contains a `Deref`. -/
def isPtrCopy (env : Env) (defId : DefId) (place : Place) : Bool :=
  let ty := env.tyOfPlace defId place
  if ty.isUnsafePtr || ty.isRef then true
  else if PlaceElem.deref ∈ place.projection then true
  else false

/-- A worklist item: a cell and an incoming points-to delta. -/
structure PointsTo where
  gProjId : GlobalProjectionId
  pointsTo : List DropObjectId
deriving DecidableEq, Repr

/-- The state the fixpoint loop mutates: the PFG and the FIFO worklist. -/
structure LoopState where
  pfg : PointerFlowGraph
  worklist : List PointsTo
deriving DecidableEq, Repr

/-- `analysis::add_edge`: no-op when the edge exists; otherwise add it
and, when the source cell's points-to set is non-empty, enqueue that set
as a delta onto the destination.  (The source asserts the span's caller
context is empty; every call site passes an empty context.) -/
def addEdgeWL (s : LoopState) (fromId toId : GlobalProjectionId)
    (spanInfo : CtxtSenSpanInfo) : LoopState :=
  if s.pfg.hasEdge fromId toId then s
  else
    let pfg := s.pfg.addEdge fromId toId spanInfo
    let fromPts := ptsOf pfg fromId
    if fromPts ≠ [] then
      { pfg := pfg, worklist := s.worklist ++ [⟨toId, fromPts⟩] }
    else
      { pfg := pfg, worklist := s.worklist }

/-- `analysis::propagate`.  With an empty delta nothing happens.
Otherwise: union the delta into the cell, register a multi-drop object
when the cell has recorded destructor sites and now points to more than
one object, push the delta to every strictly deeper projection of the
same local and context (sub-level diffusion), and for every prefix
projection `Q` of the cell with `cell = Q ++ suffix` push the delta onto
the virtual cell `N ++ suffix` for every flow neighbor `N` of `Q`
(same-level diffusion, materializing the virtual cell on demand). -/
def propagate (s : LoopState) (cur : GlobalProjectionId)
    (delta : List DropObjectId) : LoopState :=
  if delta = [] then s
  else
    let pfg1 := updateProjNode s.pfg cur
      (fun pn => { pn with pointsTo := extendSet pn.pointsTo delta })
    match pfg1.getProjectionNode? cur with
    | none => { s with pfg := pfg1 }
    | some curPn =>
      let pfg2 :=
        if curPn.csDropSpans ≠ [] ∧ (cur : DropObjectId) ∉ pfg1.multiDropObjects ∧
            1 < curPn.pointsTo.length then
          { pfg1 with multiDropObjects := insertSet pfg1.multiDropObjects cur }
        else pfg1
      match lookupA pfg2.nodes cur.gLocalId with
      | none => { s with pfg := pfg2 }
      | some node =>
        let subPush := node.projectionNodes.filterMap
          (fun p =>
            if p.1 ≠ cur.projectionId ∧ curPn.callerContext = p.2.callerContext ∧
                projIsPrefixOfB curPn.projection p.2.projection then
              some (PointsTo.mk ⟨cur.gLocalId, p.1⟩ delta)
            else none)
        let localWl := node.projectionNodes.flatMap
          (fun p =>
            if curPn.callerContext = p.2.callerContext ∧
                projIsPrefixOfB p.2.projection curPn.projection then
              let suffix := curPn.projection.drop p.2.projection.length
              p.2.neighbors.filterMap
                (fun nb =>
                  (pfg2.getProjectionNode? nb.1).map
                    (fun nbPn =>
                      (CtxtSenCallId.mk nb.1.gLocalId.defId nbPn.callerContext,
                       nb.1.gLocalId, nbPn.projection ++ suffix)))
            else [])
        let step := fun (acc : PointerFlowGraph × List PointsTo)
            (item : CtxtSenCallId × GlobalLocalId × List PlaceElem) =>
          let (pfg', vid) :=
            acc.1.addOrUpdateVirtualNode item.1 item.2.1.localId item.2.2 none
          (pfg', acc.2 ++ [PointsTo.mk vid delta])
        let r := localWl.foldl step (pfg2, [])
        { pfg := r.1, worklist := s.worklist ++ subPush ++ r.2 }

/-- The delta computed at a worklist pop:
`pts.points_to − current points-to of the cell`. -/
def deltaOf (s : LoopState) (p : PointsTo) : List DropObjectId :=
  diffSet p.pointsTo (ptsOf s.pfg p.gProjId)

/-- One pop of the `alias_analysis` while-loop applied to the already
popped item. -/
def loopBody (s : LoopState) (p : PointsTo) : LoopState :=
  propagate s p.gProjId (deltaOf s p)

/-- The `alias_analysis` while-loop, fuel-bounded: `some s` once the
worklist is exhausted, `none` when the fuel runs out first. -/
def runLoop : Nat → LoopState → Option LoopState
  | fuel, s =>
    match s.worklist with
    | [] => some s
    | p :: rest =>
      match fuel with
      | 0 => none
      | f + 1 => runLoop f (loopBody { pfg := s.pfg, worklist := rest } p)

/-! ## Reachability oracle (src/core/utils.rs) -/

/-- `utils::can_call_arrive`: DFS over resolved call edges with a shared
visited set (threaded through and returned).  Fuel replaces the
unbounded recursion of the source, which terminates via the visited
set. -/
def canCallArrive (cfgs : List (DefId × ControlFlowGraph)) :
    Nat → List DefId → DefId → DefId → Bool × List DefId
  | 0, vis, _, _ => (false, vis)
  | fuel + 1, vis, fromD, toD =>
    if fromD = toD then (true, vis)
    else if fromD ∈ vis then (false, vis)
    else
      let vis := vis ++ [fromD]
      match lookupA cfgs fromD with
      | none => (false, vis)
      | some fromCfg =>
        fromCfg.callInfos.foldl
          (fun acc p =>
            if acc.1 then acc
            else if (lookupA cfgs p.2.calleeDefId).isSome then
              canCallArrive cfgs fuel acc.2 p.2.calleeDefId toD
            else acc)
          (false, vis)

/-- `utils::can_inner_basic_block_arrive`: intraprocedural DFS over
successor edges with a shared visited set. -/
def canInnerBasicBlockArrive (cfg : ControlFlowGraph) :
    Nat → List BasicBlockId → BasicBlockId → BasicBlockId → Bool × List BasicBlockId
  | 0, vis, _, _ => (false, vis)
  | fuel + 1, vis, fromB, toB =>
    if fromB = toB then (true, vis)
    else if fromB ∈ vis then (false, vis)
    else
      let vis := vis ++ [fromB]
      match lookupA cfg.basicBlockInfos fromB with
      | none => (false, vis)
      | some bbInfo =>
        bbInfo.successors.foldl
          (fun acc succ =>
            if acc.1 then acc
            else canInnerBasicBlockArrive cfg fuel acc.2 succ toB)
          (false, vis)

/-- `utils::can_basic_block_arrive`: the interprocedural oracle.  Same
function: plain intraprocedural DFS.  Different functions: require
call-graph reachability, then look for a call site the source block can
reach intraprocedurally whose callee's entry block (block 0) can reach
the target. -/
def canBasicBlockArrive (cfgs : List (DefId × ControlFlowGraph)) :
    Nat → List GlobalBasicBlockId → GlobalBasicBlockId → GlobalBasicBlockId →
      Bool × List GlobalBasicBlockId
  | 0, vis, _, _ => (false, vis)
  | fuel + 1, vis, fromB, toB =>
    if fromB = toB then (true, vis)
    else if fromB ∈ vis then (false, vis)
    else if !(canCallArrive cfgs (fuel + 1) [] fromB.defId toB.defId).1 then
      (false, vis)
    else
      let vis := vis ++ [fromB]
      if fromB.defId = toB.defId then
        match lookupA cfgs fromB.defId with
        | none => (false, vis)
        | some cfg =>
          ((canInnerBasicBlockArrive cfg (fuel + 1) [] fromB.bbId toB.bbId).1, vis)
      else
        match lookupA cfgs fromB.defId with
        | none => (false, vis)
        | some fromCfg =>
          fromCfg.callInfos.foldl
            (fun acc p =>
              if acc.1 then acc
              else if (lookupA cfgs p.2.calleeDefId).isSome then
                if (canInnerBasicBlockArrive fromCfg (fuel + 1) [] fromB.bbId p.1).1 then
                  canBasicBlockArrive cfgs fuel acc.2 ⟨p.2.calleeDefId, 0⟩ toB
                else acc
              else acc)
            (false, vis)

/-! ## Call graph expansion (src/core/analysis.rs) -/

/-- The whole-analysis context threaded through `process_calls`
(`AnalysisContext` minus `tcx`/options/logging). -/
structure ACtxt where
  cfgs : List (DefId × ControlFlowGraph)
  pfg : PointerFlowGraph
  csReachableCalls : List CtxtSenCallId
  worklist : List PointsTo
deriving Repr

/-- The destructor-terminator part of `add_reachable`'s per-block body:
record the drop site on the place's cell and, the first time this cell
records a destructor site, seed the worklist with a fresh abstract
object (the cell's own id). -/
def processDropTerminator (c : ACtxt) (callId : CtxtSenCallId)
    (bbId : BasicBlockId) (term : Terminator) : ACtxt :=
  match term.kind with
  | TerminatorKind.drop place =>
    let csDropSpan : CtxtSenSpanInfo := ⟨callId.defId, bbId, term.span, callId.callerContext⟩
    let (pfg1, gProjId) := c.pfg.addOrUpdateNode callId place (some csDropSpan)
    if (dropSpansOf pfg1 gProjId).length = 1 then
      { c with pfg := pfg1,
               worklist := c.worklist ++ [⟨gProjId, [(gProjId : DropObjectId)]⟩] }
    else
      { c with pfg := pfg1 }
  | TerminatorKind.other => c

/-- The assignment part of `add_reachable`'s per-block body: for an
addressed right-hand side, add a flow edge from the right cell to the
left cell when the operation qualifies (`Move`/`Ref`/`AddressOf` always,
`Copy` iff `is_ptr_copy`). -/
def processAssignment (env : Env) (c : ACtxt) (callId : CtxtSenCallId)
    (bbId : BasicBlockId) (a : AssignmentInfo) : ACtxt :=
  match a.rvalue with
  | RvalKind.constant => c
  | RvalKind.addressed place =>
    let needAddEdge :=
      match a.op with
      | OpKind.move => true
      | OpKind.ref => true
      | OpKind.addressOf => true
      | OpKind.copy => isPtrCopy env callId.defId place
    if needAddEdge then
      let (pfg1, leftId) := c.pfg.addOrUpdateNode callId a.lvalue none
      let (pfg2, rightId) := pfg1.addOrUpdateNode callId place none
      let s := addEdgeWL ⟨pfg2, c.worklist⟩ rightId leftId
        ⟨callId.defId, bbId, a.statSpan, []⟩
      { c with pfg := s.pfg, worklist := s.worklist }
    else c

/-- `analysis::add_reachable`: mark the call reachable and process every
basic block — destructor terminators first, then the block's
assignments. -/
def addReachable (env : Env) (c : ACtxt) (callId : CtxtSenCallId) : ACtxt :=
  if callId ∈ c.csReachableCalls then c
  else
    match lookupA c.cfgs callId.defId with
    | none => c
    | some cfg =>
      let c := { c with csReachableCalls := c.csReachableCalls ++ [callId] }
      cfg.basicBlockInfos.foldl
        (fun c p =>
          let c := processDropTerminator c callId p.1 p.2.terminator
          p.2.assignmentInfos.foldl
            (fun c a => processAssignment env c callId p.1 a) c)
        c

/-- The arg place and qualification of a call operand (`Move` always
qualifies, `Copy` under `is_ptr_copy`, constants never). -/
def argPlaceAndQualifies (env : Env) (callerDefId : DefId) (arg : Operand) :
    Option (Place × Bool) :=
  match arg with
  | Operand.move place => some (place, true)
  | Operand.copy place => some (place, isPtrCopy env callerDefId place)
  | Operand.constant => none

/-- One iteration of `add_args_and_ret_edge`'s argument loop: a
qualifying argument at position `i` gets a deref-edge record with flags
`(true, false)` and a flow edge onto the callee parameter cell
`i + 1`. -/
def addArgEdgeStep (env : Env) (caller calleeId : CtxtSenCallId)
    (spanInfo : CtxtSenSpanInfo) (s : LoopState) (ip : Nat × Operand) :
    LoopState :=
  match argPlaceAndQualifies env caller.defId ip.2 with
  | none => s
  | some (argPlace, qualifies) =>
    if qualifies then
      let (pfg1, argId) := s.pfg.addOrUpdateNode caller argPlace none
      let (pfg2, paramId) := pfg1.addOrUpdateNode calleeId ⟨ip.1 + 1, []⟩ none
      let des := insertSet pfg2.derefEdges ⟨argId, paramId, (true, false)⟩
      let pfg3 := { pfg2 with derefEdges := des }
      addEdgeWL ⟨pfg3, s.worklist⟩ argId paramId spanInfo
    else s

/-- The return-edge block of `add_args_and_ret_edge`: for a non-unit
destination, an edge from the callee return cell (local 0) to the
caller's destination cell. -/
def addRetEdge (s : LoopState) (callerCfg : ControlFlowGraph)
    (caller calleeId : CtxtSenCallId) (ci : CallInfo)
    (spanInfo : CtxtSenSpanInfo) : LoopState :=
  match lookupA callerCfg.localInfos ci.destination.localId with
  | none => s
  | some destLocalInfo =>
    if !destLocalInfo.ty.isUnit then
      let (pfg1, calleeRetId) := s.pfg.addOrUpdateNode calleeId ⟨0, []⟩ none
      let (pfg2, retId) := pfg1.addOrUpdateNode caller ci.destination none
      addEdgeWL ⟨pfg2, s.worklist⟩ calleeRetId retId spanInfo
    else s

/-- `analysis::add_args_and_ret_edge` (resolved callee): an edge from
each qualifying argument cell to the callee parameter cell `i + 1`, each
such edge first recorded in the deref-edge set with flags
`(true, false)`; then, for a non-unit destination, an edge from the
callee return cell (local 0) to the caller's destination cell. -/
def addArgsAndRetEdge (env : Env) (s : LoopState) (callerCfg : ControlFlowGraph)
    (caller : CtxtSenCallId) (ci : CallInfo) (targetContext : CallerContext) :
    LoopState :=
  let spanInfo : CtxtSenSpanInfo := ⟨caller.defId, ci.callerBbId, ci.span, []⟩
  let calleeId : CtxtSenCallId := ⟨ci.calleeDefId, targetContext⟩
  let s := (ci.args.enum).foldl (addArgEdgeStep env caller calleeId spanInfo) s
  addRetEdge s callerCfg caller calleeId ci spanInfo

/-- One iteration of `add_args_to_ret_edge`'s argument loop: a
qualifying argument gets a deref-edge record with flags `(true, false)`
and a flow edge directly onto the caller's destination cell. -/
def addArgToRetStep (env : Env) (caller : CtxtSenCallId)
    (retId : GlobalProjectionId) (spanInfo : CtxtSenSpanInfo)
    (s : LoopState) (arg : Operand) : LoopState :=
  match argPlaceAndQualifies env caller.defId arg with
  | none => s
  | some (argPlace, qualifies) =>
    if qualifies then
      let (pfgA, argId) := s.pfg.addOrUpdateNode caller argPlace none
      let des := insertSet pfgA.derefEdges ⟨argId, retId, (true, false)⟩
      let pfgB := { pfgA with derefEdges := des }
      addEdgeWL ⟨pfgB, s.worklist⟩ argId retId spanInfo
    else s

/-- `analysis::add_args_to_ret_edge` (unresolved callee): for a non-unit
destination, an edge from each qualifying argument cell directly to the
caller's destination cell, each recorded in the deref-edge set with
flags `(true, false)`. -/
def addArgsToRetEdge (env : Env) (s : LoopState) (callerCfg : ControlFlowGraph)
    (caller : CtxtSenCallId) (ci : CallInfo) : LoopState :=
  let spanInfo : CtxtSenSpanInfo := ⟨caller.defId, ci.callerBbId, ci.span, []⟩
  match lookupA callerCfg.localInfos ci.destination.localId with
  | none => s
  | some destLocalInfo =>
    if !destLocalInfo.ty.isUnit then
      let (pfg1, retId) := s.pfg.addOrUpdateNode caller ci.destination none
      ci.args.foldl (addArgToRetStep env caller retId spanInfo)
        { pfg := pfg1, worklist := s.worklist }
    else s

/-- `ARG_TO_RET_DEF_NAMES`: the pass-through allow-list matched by
suffix against the joined `DefId` name. -/
def argToRetDefNames : List String :=
  ["from_raw", "into_raw", "as_ref", "as_mut", "borrow", "borrow_mut",
   "deref", "deref_mut", "borrow", "borrow_mut", "as_ptr", "as_mut_ptr",
   "from_raw_parts", "as_mut_slice", "as_slice", "get", "get_mut",
   "as_bytes", "as_mut_str", "as_mut_vec", "as_str", "as_bytes_mut"]

/-- `IGNORE_DEF_NAMES`: calls whose edges are ignored entirely. -/
def ignoreDefNames : List String := ["clone"]

/-- Model of `str::ends_with` on the character sequence. -/
def strEndsWith (s suffix : String) : Bool :=
  List.isSuffixOf suffix.data s.data

/-- Model of `str::starts_with` on the character sequence. -/
def strStartsWith (s pre : String) : Bool :=
  List.isPrefixOf pre.data s.data

/-- The callee filter of `process_calls`' IR-materialization loop: a
callee not yet in `cfgs` is skipped (no IR created) when its name is
suffix-matched by the pass-through list or the ignore list, or belongs
to `std`/`core`/`alloc`; otherwise `try_create_cfg` is attempted. -/
def tryMaterializeCallee (env : Env) (cfgs : List (DefId × ControlFlowGraph))
    (calleeDefId : DefId) : Option ControlFlowGraph :=
  if (lookupA cfgs calleeDefId).isSome then none
  else
    let defName := env.defName calleeDefId
    if argToRetDefNames.any (fun s2 => strEndsWith defName s2) then none
    else if ignoreDefNames.any (fun s2 => strEndsWith defName s2) then none
    else if strStartsWith defName "std::" then none
    else if strStartsWith defName "core::" then none
    else if strStartsWith defName "alloc::" then none
    else env.tryCreateCfg calleeDefId

/-- `analysis::process_calls`: BFS over context-sensitive calls.  For a
new caller: `add_reachable`, then materialize IR for not-yet-known
callees (minus the filtered ones), then for each call site either add
argument/return edges and enqueue the callee (resolved) or apply the
arg-to-destination fallback unless the callee is on the ignore list
(unresolved).  Fuel bounds the BFS; on exhaustion the current context is
returned. -/
def processCalls (env : Env) :
    Nat → ACtxt → List CtxtSenCallId → ACtxt
  | _, c, [] => c
  | 0, c, _ :: _ => c
  | fuel + 1, c, caller :: rest =>
    if caller ∈ c.csReachableCalls then processCalls env fuel c rest
    else
      let c := addReachable env c caller
      match lookupA c.cfgs caller.defId with
      | none => processCalls env fuel c rest
      | some callerCfg =>
        let newCfgs := callerCfg.callInfos.filterMap
          (fun p => tryMaterializeCallee env c.cfgs p.2.calleeDefId)
        let c := { c with cfgs := newCfgs.foldl (fun m (cfg : ControlFlowGraph) => insertKV m cfg.defId cfg) c.cfgs }
        let init : LoopState × List CtxtSenCallId := (⟨c.pfg, c.worklist⟩, [])
        let r := callerCfg.callInfos.foldl
          (fun (acc : LoopState × List CtxtSenCallId) p =>
            if (lookupA c.cfgs p.2.calleeDefId).isSome then
              let targetContext : CallerContext := [⟨caller.defId, p.1⟩]
              let calleeId : CtxtSenCallId := ⟨p.2.calleeDefId, targetContext⟩
              (addArgsAndRetEdge env acc.1 callerCfg caller p.2 targetContext,
               acc.2 ++ [calleeId])
            else
              let defName := env.defName p.2.calleeDefId
              if ignoreDefNames.any (fun s2 => strEndsWith defName s2) then acc
              else (addArgsToRetEdge env acc.1 callerCfg caller p.2, acc.2))
          init
        let c := { c with pfg := r.1.pfg, worklist := r.1.worklist }
        processCalls env fuel c (rest ++ r.2)

/-- `analysis::alias_analysis`: expand the call graph from the entry,
then drain the worklist. -/
def aliasAnalysis (env : Env) (callFuel loopFuel : Nat) (c : ACtxt)
    (entry : CtxtSenCallId) : Option LoopState :=
  let c := processCalls env callFuel c [entry]
  runLoop loopFuel ⟨c.pfg, c.worklist⟩

/-! ## Bug detectors (src/core/check.rs) -/

structure UafInfo where
  derefProjId : GlobalProjectionId
  derefSpan : CtxtSenSpanInfo
  dropObjId : DropObjectId
  dropSpan : CtxtSenSpanInfo
deriving DecidableEq, Repr

/-- The `add_uaf_infos` closure of `check_uaf`: for every abstract
object in the deref endpoint's points-to set and every destructor site
recorded at that object's owning cell, emit a finding when the drop
block can reach the deref block and they differ. -/
def addUafInfos (cfgs : List (DefId × ControlFlowGraph)) (fuel : Nat)
    (pfg : PointerFlowGraph) (derefProjId : GlobalProjectionId)
    (derefSpanInfo : CtxtSenSpanInfo) : List UafInfo :=
  (ptsOf pfg derefProjId).flatMap
    (fun dropObjId =>
      (dropSpansOf pfg dropObjId).flatMap
        (fun dropSpanInfo =>
          let dropBbId : GlobalBasicBlockId :=
            ⟨dropSpanInfo.defId, dropSpanInfo.basicBlockId⟩
          let derefBbId : GlobalBasicBlockId :=
            ⟨derefSpanInfo.defId, derefSpanInfo.basicBlockId⟩
          if (canBasicBlockArrive cfgs fuel [] dropBbId derefBbId).1 ∧
              dropBbId ≠ derefBbId then
            [⟨derefProjId, derefSpanInfo, dropObjId, dropSpanInfo⟩]
          else []))

/-- `check_uaf`: for every recorded deref edge, look up the flow edge's
neighbor record (an `unwrap` in the source — the `none` branch is
unreachable for graphs built by the analysis, see the deref-edge
invariant below) and run `add_uaf_infos` on each deref-flagged
endpoint. -/
def checkUaf (cfgs : List (DefId × ControlFlowGraph)) (fuel : Nat)
    (pfg : PointerFlowGraph) : List UafInfo :=
  pfg.derefEdges.flatMap
    (fun e =>
      match (pfg.getProjectionNode? e.fromId).bind
          (fun n => lookupA n.neighbors e.toId) with
      | none => []
      | some ni =>
        (if e.isDeref.1 then addUafInfos cfgs fuel pfg e.fromId ni.spanInfo else []) ++
        (if e.isDeref.2 then addUafInfos cfgs fuel pfg e.toId ni.spanInfo else []))

/-! ## Result merger (src/core/check.rs, `merge_check_info`) -/

structure UafResult where
  derefSpan : Span
  derefVarName : Option String
  dropSpan : Span
  dropVarName : Option String
deriving DecidableEq, Repr

def UafResult.hasVarName (r : UafResult) : Bool :=
  r.derefVarName.isSome || r.dropVarName.isSome

/-- The dedup key: the pair of raw locations. -/
structure UafSpan where
  derefSpan : Span
  dropSpan : Span
deriving DecidableEq, Repr

/-- The `get_var_name` closure: the source name of the projection's
local (the source `unwrap`s the two lookups; absent entries — never hit
by the analysis — yield `none` here). -/
def getVarName (cfgs : List (DefId × ControlFlowGraph))
    (projId : GlobalProjectionId) : Option String :=
  match lookupA cfgs projId.gLocalId.defId with
  | none => none
  | some cfg =>
    match lookupA cfg.localInfos projId.gLocalId.localId with
    | none => none
    | some localInfo => localInfo.varName

/-- One merging step of the UAF half of `merge_check_info`: bucket by
location pair; a named incoming finding evicts a sole nameless
occupant; a nameless incoming finding never extends an existing
bucket. -/
def mergeUafStep (cfgs : List (DefId × ControlFlowGraph))
    (m : List (UafSpan × List UafResult)) (info : UafInfo) :
    List (UafSpan × List UafResult) :=
  let key : UafSpan := ⟨info.derefSpan.span, info.dropSpan.span⟩
  let r : UafResult :=
    ⟨info.derefSpan.span, getVarName cfgs info.derefProjId,
     info.dropSpan.span, getVarName cfgs info.dropObjId⟩
  match lookupA m key with
  | none => insertKV m key [r]
  | some bucket =>
    if r.hasVarName then
      let bucket :=
        match bucket with
        | [old] => if !old.hasVarName then ([] : List UafResult) else [old]
        | _ => bucket
      insertKV m key (insertSet bucket r)
    else m

/-- The UAF half of `merge_check_info`, applied to the flattened raw
findings of all entries. -/
def mergeUafInfos (cfgs : List (DefId × ControlFlowGraph))
    (infos : List UafInfo) : List (UafSpan × List UafResult) :=
  infos.foldl (mergeUafStep cfgs) []

/-! ## Process exit status (src/bin/mc.rs, src/lib.rs) -/

/-- The merged output of one run (`CheckResult`), reduced to what the
exit-status claim needs: the two finding collections. -/
structure CheckResultModel where
  uafResults : List (UafSpan × List UafResult)
  dfResults : List (UafSpan × List UafResult)
deriving DecidableEq, Repr

def CheckResultModel.hasFinding (cr : CheckResultModel) : Bool :=
  !cr.uafResults.isEmpty || !cr.dfResults.isEmpty

/-- `analysis_then_check().is_err()`: the driver returns `Err` exactly
when the front-end compilation fails (`catch_fatal_errors` /
`abort_if_errors`); `after_analysis` only prints the merged result and
always returns `Compilation::Continue`, so the findings do not influence
the `Result`. -/
def analysisThenCheckIsErr (compilationFailed : Bool)
    (_checkResult : CheckResultModel) : Bool :=
  compilationFailed

/-- `mc::main`: `std::process::exit(analysis_then_check().is_err() as i32)`. -/
def mcMainExitCode (compilationFailed : Bool)
    (checkResult : CheckResultModel) : Nat :=
  if analysisThenCheckIsErr compilationFailed checkResult then 1 else 0

/-! ## A concrete input on which the fixpoint loop diverges

The function below is the IR of
```
fn f() {                         // DefId 0
    let x = ...;                 // local 1, needs drop
    let n: *mut Node = ...;      // local 2, Node { next: *mut Node }
    n = &x;                      //   bb0: _2 = &_1          (Ref)
    (*n).next = n;               //   bb0: (*_2).0 = copy _2 (Copy of a raw pointer)
    drop(x);                     //   bb0 terminator: Drop(_1)
}
```
The copy qualifies (`*mut` is a raw pointer), so the graph has the flow
edge `(local 2, []) → (local 2, [Deref, Field 0])`.  Same-level
diffusion then keeps manufacturing the virtual cells
`(local 2, [Deref, Field 0]^k)` for ever-growing `k`. -/

/-- `[Deref, Field 0]` iterated `k` times. -/
def dfp : Nat → List PlaceElem
  | 0 => []
  | k + 1 => PlaceElem.deref :: PlaceElem.field 0 :: dfp k

def xGid : GlobalLocalId := ⟨0, 1⟩
def nGid : GlobalLocalId := ⟨0, 2⟩
def oId : DropObjectId := ⟨xGid, 0⟩
def nPid (i : Nat) : GlobalProjectionId := ⟨nGid, i⟩

def badCfg : ControlFlowGraph :=
  { defId := 0,
    localInfos :=
      [(1, ⟨1, true, Ty.other, some "x", 1⟩),
       (2, ⟨2, false, Ty.rawPtr, some "n", 2⟩)],
    basicBlockInfos :=
      [(0, ⟨0, false, [],
        [⟨⟨2, []⟩, RvalKind.addressed ⟨1, []⟩, 10, OpKind.ref⟩,
         ⟨⟨2, [PlaceElem.deref, PlaceElem.field 0]⟩,
          RvalKind.addressed ⟨2, []⟩, 11, OpKind.copy⟩],
        ⟨TerminatorKind.drop ⟨1, []⟩, 12⟩⟩)],
    callInfos := [] }

def badEnv : Env :=
  { tyOfPlace := fun _ p =>
      if p.localId = 2 ∧ p.projection = [] then Ty.rawPtr else Ty.other,
    tryCreateCfg := fun _ => none,
    defName := fun _ => "f" }

def badC0 : ACtxt :=
  { cfgs := [(0, badCfg)], pfg := PointerFlowGraph.empty,
    csReachableCalls := [], worklist := [] }

def badEntry : CtxtSenCallId := ⟨0, []⟩

/-- The `x` cell of the diverging run (points-to seeded, drop recorded,
one edge to `(local 2, [])`). -/
def xNodeB : PfgNode :=
  ⟨xGid, [(0, ⟨0, [], [], [oId], [⟨0, 0, 12, []⟩],
           [(nPid 0, ⟨nPid 0, ⟨0, 0, 10, []⟩⟩)]⟩)]⟩

/-- The `i`-th projection node of local 2 at stage `k`: projection
`dfp i`, points-to `{oId}` below the frontier `k`, the single flow edge
out of the root projection. -/
def nNodeB (k i : Nat) : ProjectionNode :=
  { id := i, callerContext := [], projection := dfp i,
    pointsTo := if i < k then [oId] else [],
    csDropSpans := [],
    neighbors := if i = 0 then [(nPid 1, ⟨nPid 1, ⟨0, 0, 11, []⟩⟩)] else [] }

def bPfg (k : Nat) : PointerFlowGraph :=
  { nodes :=
      [(xGid, xNodeB),
       (nGid, ⟨nGid, (List.range (k + 1)).map (fun i => (i, nNodeB k i))⟩)],
    derefEdges := [⟨nPid 0, nPid 1, (false, true)⟩],
    multiDropObjects := [] }

/-- Stage `k` of the diverging run: the worklist holds exactly the delta
for the freshly materialized frontier cell. -/
def bState (k : Nat) : LoopState :=
  ⟨bPfg k, [⟨nPid k, [oId]⟩]⟩

/-- The flow-edge relation of the graph: `toId` is in the neighbor map
of `fromId`'s projection node.  (`has_edge` in the source additionally
checks that the destination's local exists; the neighbor map itself is
the edge set.) -/
def edgeIn (pfg : PointerFlowGraph) (fromId toId : GlobalProjectionId) : Bool :=
  ((pfg.getProjectionNode? fromId).bind
    (fun n => lookupA n.neighbors toId)).isSome

/-- The deref-edge soundness invariant: every recorded deref edge has a
matching flow edge, so the `unwrap` in `check_uaf`'s neighbor lookup
cannot fail. -/
def DerefCovered (pfg : PointerFlowGraph) : Prop :=
  ∀ e ∈ pfg.derefEdges,
    ((pfg.getProjectionNode? e.fromId).bind
      (fun n => lookupA n.neighbors e.toId)).isSome

/-! ## Concrete loop state for exercising the monotonicity lemmas -/

def gC6 : GlobalProjectionId := ⟨⟨0, 1⟩, 0⟩

def oC6 : DropObjectId := ⟨⟨0, 2⟩, 0⟩

def pnC6 : ProjectionNode :=
  { id := 0, callerContext := [], projection := [], pointsTo := [oC6],
    csDropSpans := [], neighbors := [] }

def pfgC6 : PointerFlowGraph :=
  { nodes := [(⟨0, 1⟩, { gid := ⟨0, 1⟩, projectionNodes := [(0, pnC6)] })],
    derefEdges := [], multiDropObjects := [] }

def sC6 : LoopState := { pfg := pfgC6, worklist := [] }

/-! ## Concrete input for the deref-edge coverage theorem -/

def cfg10 : ControlFlowGraph :=
  { defId := 0,
    localInfos :=
      [(1, ⟨1, true, Ty.other, some "x", 0⟩),
       (2, ⟨2, false, Ty.refTy, some "p", 0⟩),
       (3, ⟨3, false, Ty.refTy, some "y", 0⟩)],
    basicBlockInfos :=
      [(0, ⟨0, false, [],
        [⟨⟨2, []⟩, RvalKind.addressed ⟨1, []⟩, 100, OpKind.ref⟩,
         ⟨⟨3, []⟩, RvalKind.addressed ⟨2, [PlaceElem.deref]⟩, 101, OpKind.copy⟩],
        ⟨TerminatorKind.drop ⟨1, []⟩, 102⟩⟩)],
    callInfos := [] }

def env10 : Env :=
  { tyOfPlace := fun _ _ => Ty.other,
    tryCreateCfg := fun _ => none,
    defName := fun _ => "crate0::main" }

def c10 : ACtxt :=
  { cfgs := [(0, cfg10)], pfg := PointerFlowGraph.empty,
    csReachableCalls := [], worklist := [] }

def xObj10 : DropObjectId := ⟨⟨0, 1⟩, 0⟩

def sC10 : LoopState :=
  { pfg :=
    { nodes :=
        [(⟨0, 1⟩,
          { gid := ⟨0, 1⟩,
            projectionNodes :=
              [(0, { id := 0, callerContext := [], projection := [],
                     pointsTo := [xObj10],
                     csDropSpans := [⟨0, 0, 102, []⟩],
                     neighbors := [(⟨⟨0, 2⟩, 0⟩, ⟨⟨⟨0, 2⟩, 0⟩, ⟨0, 0, 100, []⟩⟩)] })] }),
         (⟨0, 2⟩,
          { gid := ⟨0, 2⟩,
            projectionNodes :=
              [(0, { id := 0, callerContext := [], projection := [],
                     pointsTo := [xObj10], csDropSpans := [], neighbors := [] }),
               (1, { id := 1, callerContext := [],
                     projection := [PlaceElem.deref],
                     pointsTo := [xObj10], csDropSpans := [],
                     neighbors := [(⟨⟨0, 3⟩, 0⟩, ⟨⟨⟨0, 3⟩, 0⟩, ⟨0, 0, 101, []⟩⟩)] })] }),
         (⟨0, 3⟩,
          { gid := ⟨0, 3⟩,
            projectionNodes :=
              [(0, { id := 0, callerContext := [], projection := [],
                     pointsTo := [xObj10], csDropSpans := [], neighbors := [] })] })],
      derefEdges := [⟨⟨⟨0, 2⟩, 1⟩, ⟨⟨0, 3⟩, 0⟩, (true, false)⟩],
      multiDropObjects := [] },
    worklist := [] }

def eC10 : DerefEdgeInfo := ⟨⟨⟨0, 2⟩, 1⟩, ⟨⟨0, 3⟩, 0⟩, (true, false)⟩

/-! ## Auxiliary state of the diverging run -/

/-- The graph after the points-to update of the pop at stage `k`, before
the frontier cell `k + 1` is materialized. -/
def midPfg (k : Nat) : PointerFlowGraph :=
  { nodes :=
      [(xGid, xNodeB),
       (nGid, ⟨nGid, (List.range (k + 1)).map (fun i => (i, nNodeB (k + 1) i))⟩)],
    derefEdges := [⟨nPid 0, nPid 1, (false, true)⟩],
    multiDropObjects := [] }

/-- One pop of the fixpoint loop as a total step function. -/
def stepB (s : LoopState) : LoopState :=
  match s.worklist with
  | [] => s
  | p :: rest => loopBody ⟨s.pfg, rest⟩ p

def pcB : ACtxt := processCalls badEnv 1 badC0 [badEntry]

def sB0 : LoopState := ⟨pcB.pfg, pcB.worklist⟩

def sB1 : LoopState := stepB sB0

def sB2 : LoopState := stepB sB1

def sB3 : LoopState := stepB sB2

/-! ## Helper lemmas: association lists and list sets -/

theorem lookupA_append {α β : Type} [DecidableEq α] (l m : List (α × β)) (a : α) :
    lookupA (l ++ m) a =
      match lookupA l a with
      | some b => some b
      | none => lookupA m a := by
  induction l with
  | nil => simp [lookupA]
  | cons p l ih =>
    by_cases h : p.1 = a
    · simp [lookupA, h]
    · simp [lookupA, h, ih]

theorem lookupA_append_left {α β : Type} [DecidableEq α] {l : List (α × β)}
    {a : α} {b : β} (m : List (α × β)) (h : lookupA l a = some b) :
    lookupA (l ++ m) a = some b := by
  rw [lookupA_append, h]

theorem lookupA_append_right {α β : Type} [DecidableEq α] {l : List (α × β)}
    {a : α} (m : List (α × β)) (h : lookupA l a = none) :
    lookupA (l ++ m) a = lookupA m a := by
  rw [lookupA_append, h]

theorem lookupA_updateA {α β : Type} [DecidableEq α] (l : List (α × β))
    (a : α) (g : β → β) (b : α) :
    lookupA (updateA l a g) b =
      if b = a then (lookupA l b).map g else lookupA l b := by
  induction l with
  | nil => simp [lookupA, updateA]
  | cons p l ih =>
    simp only [updateA, List.map_cons] at *
    by_cases h1 : p.1 = a
    · by_cases h2 : b = a
      · subst h2; simp [lookupA, h1, ih]
      · have hab : ¬ a = b := fun hh => h2 hh.symm
        have : ¬ p.1 = b := by rw [h1]; exact hab
        simp [lookupA, h1, this, ih, h2, hab]
    · by_cases h3 : p.1 = b
      · have : ¬ b = a := by rw [← h3]; exact h1
        simp [lookupA, h1, h3, this]
      · simp [lookupA, h1, h3, ih]

theorem lookupA_insertKV_self {α β : Type} [DecidableEq α] (l : List (α × β))
    (a : α) (b : β) : lookupA (insertKV l a b) a = some b := by
  unfold insertKV
  by_cases h : (lookupA l a).isSome
  · rw [if_pos h, lookupA_updateA, if_pos rfl]
    obtain ⟨c, hc⟩ := Option.isSome_iff_exists.mp h
    simp [hc]
  · rw [if_neg h]
    have hnone : lookupA l a = none := Option.not_isSome_iff_eq_none.mp h
    rw [lookupA_append_right _ hnone]
    simp [lookupA]

theorem lookupA_insertKV_ne {α β : Type} [DecidableEq α] (l : List (α × β))
    (a : α) (b : β) (c : α) (h : c ≠ a) :
    lookupA (insertKV l a b) c = lookupA l c := by
  unfold insertKV
  by_cases h1 : (lookupA l a).isSome
  · rw [if_pos h1, lookupA_updateA, if_neg h]
  · rw [if_neg h1, lookupA_append]
    have hac : ¬ a = c := fun hh => h hh.symm
    match hm : lookupA l c with
    | some d => rfl
    | none => simp [lookupA, hac]

theorem mem_insertSet {α : Type} [DecidableEq α] (l : List α) (a b : α) :
    b ∈ insertSet l a ↔ b = a ∨ b ∈ l := by
  unfold insertSet
  by_cases h : a ∈ l
  · simp only [if_pos h]
    constructor
    · exact fun hb => Or.inr hb
    · rintro (rfl | hb)
      · exact h
      · exact hb
  · simp only [if_neg h, List.mem_append, List.mem_singleton]
    tauto

theorem subset_insertSet {α : Type} [DecidableEq α] (l : List α) (a : α) :
    l ⊆ insertSet l a := by
  intro x hx
  exact (mem_insertSet l a x).mpr (Or.inr hx)

theorem subset_extendSet {α : Type} [DecidableEq α] (l m : List α) :
    l ⊆ extendSet l m := by
  induction m generalizing l with
  | nil => intro x hx; exact hx
  | cons a m ih =>
    intro x hx
    exact ih (insertSet l a) (subset_insertSet l a hx)

theorem mem_extendSet {α : Type} [DecidableEq α] (l m : List α) (b : α) :
    b ∈ extendSet l m ↔ b ∈ l ∨ b ∈ m := by
  induction m generalizing l with
  | nil => simp [extendSet]
  | cons a m ih =>
    show b ∈ extendSet (insertSet l a) m ↔ _
    rw [ih, mem_insertSet]
    simp only [List.mem_cons]
    tauto

/-! ## Helper lemmas: PFG structure -/

theorem GlobalProjectionId.eq_iff (g g' : GlobalProjectionId) :
    g' = g ↔ g'.gLocalId = g.gLocalId ∧ g'.projectionId = g.projectionId := by
  cases g; cases g'; simp [GlobalProjectionId.mk.injEq]

theorem getProjectionNode?_updateProjNode (pfg : PointerFlowGraph)
    (g : GlobalProjectionId) (f : ProjectionNode → ProjectionNode)
    (g' : GlobalProjectionId) :
    (updateProjNode pfg g f).getProjectionNode? g' =
      if g' = g then (pfg.getProjectionNode? g').map f
      else pfg.getProjectionNode? g' := by
  unfold updateProjNode PointerFlowGraph.getProjectionNode?
  simp only [lookupA_updateA]
  by_cases h1 : g'.gLocalId = g.gLocalId
  · rw [if_pos h1]
    cases hm : lookupA pfg.nodes g'.gLocalId with
    | none =>
      simp only [Option.map_none', Option.none_bind]
      split <;> rfl
    | some n =>
      simp only [Option.map_some', Option.some_bind, lookupA_updateA]
      simp [GlobalProjectionId.eq_iff, h1]
  · rw [if_neg h1, if_neg (fun hc => h1 ((GlobalProjectionId.eq_iff g g').mp hc).1)]

theorem nodes_addEdge (pfg : PointerFlowGraph) (fromId toId : GlobalProjectionId)
    (si : CtxtSenSpanInfo) :
    (pfg.addEdge fromId toId si).nodes =
      (updateProjNode pfg fromId
        (fun pn => { pn with neighbors := insertKV pn.neighbors toId ⟨toId, si⟩ })).nodes := by
  unfold PointerFlowGraph.addEdge
  cases h1 : (updateProjNode pfg fromId
      (fun pn => { pn with neighbors := insertKV pn.neighbors toId ⟨toId, si⟩ })).getProjectionNode? fromId with
  | none => simp [h1]
  | some fn =>
    cases h2 : (updateProjNode pfg fromId
        (fun pn => { pn with neighbors := insertKV pn.neighbors toId ⟨toId, si⟩ })).getProjectionNode? toId with
    | none => simp [h1, h2]
    | some tn =>
      simp only [h1, h2]
      split <;> rfl

theorem getProjectionNode?_addEdge (pfg : PointerFlowGraph)
    (fromId toId : GlobalProjectionId) (si : CtxtSenSpanInfo)
    (g : GlobalProjectionId) :
    (pfg.addEdge fromId toId si).getProjectionNode? g =
      if g = fromId then
        (pfg.getProjectionNode? g).map
          (fun pn => { pn with neighbors := insertKV pn.neighbors toId ⟨toId, si⟩ })
      else pfg.getProjectionNode? g := by
  have h := nodes_addEdge pfg fromId toId si
  unfold PointerFlowGraph.getProjectionNode? at *
  rw [h]
  exact getProjectionNode?_updateProjNode pfg fromId _ g

theorem ptsOf_addEdge (pfg : PointerFlowGraph) (fromId toId : GlobalProjectionId)
    (si : CtxtSenSpanInfo) (g : GlobalProjectionId) :
    ptsOf (pfg.addEdge fromId toId si) g = ptsOf pfg g := by
  unfold ptsOf
  rw [getProjectionNode?_addEdge]
  by_cases h : g = fromId
  · rw [if_pos h]
    cases pfg.getProjectionNode? g <;> rfl
  · rw [if_neg h]

theorem hasEdge_iff (pfg : PointerFlowGraph) (fromId toId : GlobalProjectionId) :
    pfg.hasEdge fromId toId = true ↔
      (lookupA pfg.nodes toId.gLocalId).isSome ∧
      ∃ pn, pfg.getProjectionNode? fromId = some pn ∧
        (lookupA pn.neighbors toId).isSome := by
  unfold PointerFlowGraph.hasEdge PointerFlowGraph.hasGlobalProjection
    PointerFlowGraph.hasGlobalLocal
  cases h1 : pfg.getProjectionNode? fromId with
  | none => simp
  | some pn =>
    simp only [Option.isSome_some, Bool.not_true]
    cases h2 : (lookupA pfg.nodes toId.gLocalId).isSome with
    | false => simp [h2]
    | true => simp [h2]

theorem hasEdge_addEdge_self (pfg : PointerFlowGraph)
    (fromId toId : GlobalProjectionId) (si : CtxtSenSpanInfo)
    (h1 : (pfg.getProjectionNode? fromId).isSome)
    (h2 : (lookupA pfg.nodes toId.gLocalId).isSome) :
    (pfg.addEdge fromId toId si).hasEdge fromId toId = true := by
  obtain ⟨pn, hpn⟩ := Option.isSome_iff_exists.mp h1
  rw [hasEdge_iff]
  constructor
  · have := nodes_addEdge pfg fromId toId si
    rw [this]
    unfold updateProjNode
    simp only [lookupA_updateA]
    by_cases h : toId.gLocalId = fromId.gLocalId
    · rw [if_pos h]
      simpa using h2
    · rw [if_neg h]; exact h2
  · refine ⟨{ pn with neighbors := insertKV pn.neighbors toId ⟨toId, si⟩ }, ?_, ?_⟩
    · rw [getProjectionNode?_addEdge, if_pos rfl, hpn]; rfl
    · simp [lookupA_insertKV_self]
theorem getOrAddProjection_found {node : PfgNode} {proj : List PlaceElem}
    {cc : CallerContext} {id : ProjectionId}
    (ht : node.tryGetProjectionId proj cc = some id) :
    node.getOrAddProjection proj cc = (id, node) := by
  simp [PfgNode.getOrAddProjection, ht]

theorem getOrAddProjection_missing {node : PfgNode} {proj : List PlaceElem}
    {cc : CallerContext}
    (ht : node.tryGetProjectionId proj cc = none) :
    node.getOrAddProjection proj cc = node.addProjection proj cc := by
  simp [PfgNode.getOrAddProjection, ht]

theorem addDropSpanTo_none (node : PfgNode) (projId : ProjectionId) :
    node.addDropSpanTo projId none = node := rfl

theorem addDropSpanTo_some (node : PfgNode) (projId : ProjectionId)
    (d : CtxtSenSpanInfo) :
    node.addDropSpanTo projId (some d) =
      { node with
          projectionNodes := updateA node.projectionNodes projId
            (fun pn => { pn with csDropSpans := pn.csDropSpans ++ [d] }) } := rfl

/-- `addDropSpanTo` only touches `csDropSpans` of existing entries. -/
theorem lookupA_addDropSpanTo (node : PfgNode) (projId : ProjectionId)
    (ds : Option CtxtSenSpanInfo) (j : ProjectionId) (pn : ProjectionNode)
    (h : lookupA node.projectionNodes j = some pn) :
    ∃ pn', lookupA (node.addDropSpanTo projId ds).projectionNodes j = some pn' ∧
      pn'.id = pn.id ∧ pn'.callerContext = pn.callerContext ∧
      pn'.projection = pn.projection ∧ pn'.pointsTo = pn.pointsTo ∧
      pn'.neighbors = pn.neighbors := by
  cases ds with
  | none => exact ⟨pn, h, rfl, rfl, rfl, rfl, rfl⟩
  | some d =>
    rw [addDropSpanTo_some]
    dsimp only
    rw [lookupA_updateA]
    by_cases hj : j = projId
    · rw [if_pos hj, h]
      exact ⟨_, rfl, rfl, rfl, rfl, rfl, rfl⟩
    · rw [if_neg hj]
      exact ⟨pn, h, rfl, rfl, rfl, rfl, rfl⟩

theorem addOrUpdateVirtualNode_frame (pfg : PointerFlowGraph)
    (callId : CtxtSenCallId) (localId : LocalId) (proj : List PlaceElem)
    (ds : Option CtxtSenSpanInfo) (g : GlobalProjectionId) (pn : ProjectionNode)
    (h : pfg.getProjectionNode? g = some pn) :
    ∃ pn', ((pfg.addOrUpdateVirtualNode callId localId proj ds).1).getProjectionNode? g = some pn' ∧
      pn'.id = pn.id ∧ pn'.callerContext = pn.callerContext ∧
      pn'.projection = pn.projection ∧ pn'.pointsTo = pn.pointsTo ∧
      pn'.neighbors = pn.neighbors := by
  unfold PointerFlowGraph.getProjectionNode? at h
  cases hn : lookupA pfg.nodes g.gLocalId with
  | none => rw [hn] at h; simp at h
  | some n =>
  rw [hn] at h
  simp only [Option.some_bind] at h
  unfold PointerFlowGraph.addOrUpdateVirtualNode
  dsimp only
  by_cases hg : (lookupA pfg.nodes ⟨callId.defId, localId⟩).isSome
  · rw [if_pos hg]
    obtain ⟨node, hm⟩ := Option.isSome_iff_exists.mp hg
    rw [hm]
    dsimp only
    by_cases hgl : g.gLocalId = (⟨callId.defId, localId⟩ : GlobalLocalId)
    · -- the touched local: `n = node`, and only `csDropSpans` can change
      have hnode : n = node := by
        rw [hgl] at hn; rw [hn] at hm; exact (Option.some.injEq _ _).mp hm
      subst hnode
      have hbase : ∃ pnb, lookupA ((n.getOrAddProjection proj callId.callerContext).2).projectionNodes
          g.projectionId = some pnb ∧ pnb = pn := by
        cases ht : n.tryGetProjectionId proj callId.callerContext with
        | some id => rw [getOrAddProjection_found ht]; exact ⟨pn, h, rfl⟩
        | none =>
          rw [getOrAddProjection_missing ht]
          unfold PfgNode.addProjection
          dsimp only
          exact ⟨pn, lookupA_append_left _ h, rfl⟩
      obtain ⟨pnb, hb, rfl⟩ := hbase
      obtain ⟨pn', hlk, h1, h2, h3, h4, h5⟩ :=
        lookupA_addDropSpanTo ((n.getOrAddProjection proj callId.callerContext).2)
          ((n.getOrAddProjection proj callId.callerContext).1) ds g.projectionId pnb hb
      refine ⟨pn', ?_, h1, h2, h3, h4, h5⟩
      unfold PointerFlowGraph.getProjectionNode?
      dsimp only
      rw [hgl, lookupA_insertKV_self]
      simp only [Option.some_bind]
      exact hlk
    · -- untouched local: everything preserved
      refine ⟨pn, ?_, rfl, rfl, rfl, rfl, rfl⟩
      unfold PointerFlowGraph.getProjectionNode?
      dsimp only
      rw [lookupA_insertKV_ne _ _ _ _ hgl, hn]
      simp only [Option.some_bind]
      exact h
  · rw [if_neg hg]
    have hnone : lookupA pfg.nodes (⟨callId.defId, localId⟩ : GlobalLocalId) = none :=
      Option.not_isSome_iff_eq_none.mp hg
    have hgl : g.gLocalId ≠ (⟨callId.defId, localId⟩ : GlobalLocalId) := by
      intro hc; rw [hc, hnone] at hn; exact Option.noConfusion hn
    have hlk : lookupA (pfg.nodes ++
        [((⟨callId.defId, localId⟩ : GlobalLocalId),
          PfgNode.mk ⟨callId.defId, localId⟩ [])]) ⟨callId.defId, localId⟩ =
        some (PfgNode.mk ⟨callId.defId, localId⟩ []) := by
      rw [lookupA_append_right _ hnone]
      simp [lookupA]
    dsimp only
    rw [hlk]
    dsimp only
    refine ⟨pn, ?_, rfl, rfl, rfl, rfl, rfl⟩
    unfold PointerFlowGraph.getProjectionNode?
    dsimp only
    rw [lookupA_insertKV_ne _ _ _ _ hgl, lookupA_append_left _ hn]
    simp only [Option.some_bind]
    exact h

theorem lookupA_isSome_of_mem {α β : Type} [DecidableEq α] {l : List (α × β)}
    {a : α} {b : β} (h : (a, b) ∈ l) : (lookupA l a).isSome := by
  induction l with
  | nil => simp at h
  | cons p l ih =>
    rcases List.mem_cons.mp h with h1 | h2
    · subst h1; simp [lookupA]
    · by_cases hp : p.1 = a
      · simp [lookupA, hp]
      · simp only [lookupA, if_neg hp]
        exact ih h2

/-- The projection node returned by `add_or_update_virtual_node` exists
in the resulting graph. -/
theorem addOrUpdateVirtualNode_found (pfg : PointerFlowGraph)
    (callId : CtxtSenCallId) (localId : LocalId) (proj : List PlaceElem)
    (ds : Option CtxtSenSpanInfo) :
    (((pfg.addOrUpdateVirtualNode callId localId proj ds).1).getProjectionNode?
      ((pfg.addOrUpdateVirtualNode callId localId proj ds).2)).isSome := by
  have key : ∀ (node : PfgNode),
      (lookupA ((node.getOrAddProjection proj callId.callerContext).2).projectionNodes
        ((node.getOrAddProjection proj callId.callerContext).1)).isSome := by
    intro node
    cases ht : node.tryGetProjectionId proj callId.callerContext with
    | some id =>
      rw [getOrAddProjection_found ht]
      unfold PfgNode.tryGetProjectionId at ht
      cases hf : node.projectionNodes.find?
          (fun p => decide (p.2.projection = proj ∧ p.2.callerContext = callId.callerContext)) with
      | none => rw [hf] at ht; simp at ht
      | some entry =>
        rw [hf] at ht
        simp only [Option.map_some'] at ht
        have hmem := List.mem_of_find?_eq_some hf
        have : (id, entry.2) ∈ node.projectionNodes := by
          have : entry = (id, entry.2) := by
            cases entry with
            | mk e1 e2 => simp at ht ⊢; exact (Option.some.injEq _ _).mp (by simpa using ht)
          rw [← this]; exact hmem
        exact lookupA_isSome_of_mem this
    | none =>
      rw [getOrAddProjection_missing ht]
      unfold PfgNode.addProjection
      dsimp only
      rw [lookupA_append]
      cases hx : lookupA node.projectionNodes node.projectionNodes.length with
      | some b => simp
      | none => simp [lookupA]
  have key2 : ∀ (node : PfgNode) (projId : ProjectionId),
      (lookupA node.projectionNodes projId).isSome →
      (lookupA (node.addDropSpanTo projId ds).projectionNodes projId).isSome := by
    intro node projId hs
    cases ds with
    | none => exact hs
    | some d =>
      rw [addDropSpanTo_some]
      dsimp only
      rw [lookupA_updateA, if_pos rfl]
      simpa using hs
  unfold PointerFlowGraph.addOrUpdateVirtualNode
  dsimp only
  by_cases hg : (lookupA pfg.nodes ⟨callId.defId, localId⟩).isSome
  · rw [if_pos hg]
    obtain ⟨node, hm⟩ := Option.isSome_iff_exists.mp hg
    rw [hm]
    dsimp only
    unfold PointerFlowGraph.getProjectionNode?
    dsimp only
    rw [lookupA_insertKV_self]
    simp only [Option.some_bind]
    exact key2 _ _ (key node)
  · rw [if_neg hg]
    have hnone : lookupA pfg.nodes (⟨callId.defId, localId⟩ : GlobalLocalId) = none :=
      Option.not_isSome_iff_eq_none.mp hg
    have hlk : lookupA (pfg.nodes ++
        [((⟨callId.defId, localId⟩ : GlobalLocalId),
          PfgNode.mk ⟨callId.defId, localId⟩ [])]) ⟨callId.defId, localId⟩ =
        some (PfgNode.mk ⟨callId.defId, localId⟩ []) := by
      rw [lookupA_append_right _ hnone]
      simp [lookupA]
    dsimp only
    rw [hlk]
    dsimp only
    unfold PointerFlowGraph.getProjectionNode?
    dsimp only
    rw [lookupA_insertKV_self]
    simp only [Option.some_bind]
    exact key2 _ _ (key (PfgNode.mk ⟨callId.defId, localId⟩ []))

theorem derefEdges_addOrUpdateVirtualNode (pfg : PointerFlowGraph)
    (callId : CtxtSenCallId) (localId : LocalId) (proj : List PlaceElem)
    (ds : Option CtxtSenSpanInfo) :
    ((pfg.addOrUpdateVirtualNode callId localId proj ds).1).derefEdges =
      pfg.derefEdges := by
  unfold PointerFlowGraph.addOrUpdateVirtualNode
  dsimp only
  split
  · split <;> rfl
  · split <;> rfl

theorem multiDropObjects_addOrUpdateVirtualNode (pfg : PointerFlowGraph)
    (callId : CtxtSenCallId) (localId : LocalId) (proj : List PlaceElem)
    (ds : Option CtxtSenSpanInfo) :
    ((pfg.addOrUpdateVirtualNode callId localId proj ds).1).multiDropObjects =
      pfg.multiDropObjects := by
  unfold PointerFlowGraph.addOrUpdateVirtualNode
  dsimp only
  split
  · split <;> rfl
  · split <;> rfl

theorem gLocalId_addOrUpdateVirtualNode (pfg : PointerFlowGraph)
    (callId : CtxtSenCallId) (localId : LocalId) (proj : List PlaceElem)
    (ds : Option CtxtSenSpanInfo) :
    ((pfg.addOrUpdateVirtualNode callId localId proj ds).2).gLocalId =
      ⟨callId.defId, localId⟩ := by
  unfold PointerFlowGraph.addOrUpdateVirtualNode
  dsimp only
  split
  · rfl
  · rfl

theorem nodes_isSome_addOrUpdateVirtualNode (pfg : PointerFlowGraph)
    (callId : CtxtSenCallId) (localId : LocalId) (proj : List PlaceElem)
    (ds : Option CtxtSenSpanInfo) (k : GlobalLocalId)
    (h : (lookupA pfg.nodes k).isSome) :
    (lookupA ((pfg.addOrUpdateVirtualNode callId localId proj ds).1).nodes k).isSome := by
  unfold PointerFlowGraph.addOrUpdateVirtualNode
  dsimp only
  by_cases hg : (lookupA pfg.nodes ⟨callId.defId, localId⟩).isSome
  · rw [if_pos hg]
    obtain ⟨node, hm⟩ := Option.isSome_iff_exists.mp hg
    rw [hm]
    dsimp only
    by_cases hk : k = (⟨callId.defId, localId⟩ : GlobalLocalId)
    · subst hk; rw [lookupA_insertKV_self]; rfl
    · rw [lookupA_insertKV_ne _ _ _ _ hk]; exact h
  · rw [if_neg hg]
    have hnone : lookupA pfg.nodes (⟨callId.defId, localId⟩ : GlobalLocalId) = none :=
      Option.not_isSome_iff_eq_none.mp hg
    have hlk : lookupA (pfg.nodes ++
        [((⟨callId.defId, localId⟩ : GlobalLocalId),
          PfgNode.mk ⟨callId.defId, localId⟩ [])]) ⟨callId.defId, localId⟩ =
        some (PfgNode.mk ⟨callId.defId, localId⟩ []) := by
      rw [lookupA_append_right _ hnone]
      simp [lookupA]
    dsimp only
    rw [hlk]
    dsimp only
    by_cases hk : k = (⟨callId.defId, localId⟩ : GlobalLocalId)
    · subst hk; rw [lookupA_insertKV_self]; rfl
    · rw [lookupA_insertKV_ne _ _ _ _ hk]
      obtain ⟨n, hn⟩ := Option.isSome_iff_exists.mp h
      rw [lookupA_append_left _ hn]; rfl

/-- The `gLocal` of the returned id is present in the resulting graph. -/
theorem addOrUpdateVirtualNode_gLocal_found (pfg : PointerFlowGraph)
    (callId : CtxtSenCallId) (localId : LocalId) (proj : List PlaceElem)
    (ds : Option CtxtSenSpanInfo) :
    (lookupA ((pfg.addOrUpdateVirtualNode callId localId proj ds).1).nodes
      ((pfg.addOrUpdateVirtualNode callId localId proj ds).2).gLocalId).isSome := by
  have h := addOrUpdateVirtualNode_found pfg callId localId proj ds
  unfold PointerFlowGraph.getProjectionNode? at h
  cases hx : lookupA ((pfg.addOrUpdateVirtualNode callId localId proj ds).1).nodes
      ((pfg.addOrUpdateVirtualNode callId localId proj ds).2).gLocalId with
  | none => rw [hx] at h; simp at h
  | some n => rfl

theorem ptsOf_addOrUpdateVirtualNode_subset (pfg : PointerFlowGraph)
    (callId : CtxtSenCallId) (localId : LocalId) (proj : List PlaceElem)
    (ds : Option CtxtSenSpanInfo) (g : GlobalProjectionId) :
    ptsOf pfg g ⊆ ptsOf ((pfg.addOrUpdateVirtualNode callId localId proj ds).1) g := by
  cases h : pfg.getProjectionNode? g with
  | none =>
    unfold ptsOf
    rw [h]
    intro x hx
    simp at hx
  | some pn =>
    obtain ⟨pn', h', _, _, _, h4, _⟩ :=
      addOrUpdateVirtualNode_frame pfg callId localId proj ds g pn h
    unfold ptsOf
    rw [h, h']
    dsimp only
    rw [h4]
    exact fun x hx => hx

/-- `add_or_update_virtual_node` preserves the deref-edge invariant. -/
theorem derefCovered_addOrUpdateVirtualNode (pfg : PointerFlowGraph)
    (callId : CtxtSenCallId) (localId : LocalId) (proj : List PlaceElem)
    (ds : Option CtxtSenSpanInfo) (h : DerefCovered pfg) :
    DerefCovered ((pfg.addOrUpdateVirtualNode callId localId proj ds).1) := by
  intro e he
  rw [derefEdges_addOrUpdateVirtualNode] at he
  have hcov := h e he
  cases hx : pfg.getProjectionNode? e.fromId with
  | none => rw [hx] at hcov; simp at hcov
  | some pn =>
    rw [hx] at hcov
    simp only [Option.some_bind] at hcov
    obtain ⟨pn', h', _, _, _, _, h5⟩ :=
      addOrUpdateVirtualNode_frame pfg callId localId proj ds e.fromId pn hx
    rw [h', Option.some_bind, h5]
    exact hcov

/-- Membership in the deref-edge set after `add_edge`. -/
theorem derefEdges_addEdge_sub (pfg : PointerFlowGraph)
    (fromId toId : GlobalProjectionId) (si : CtxtSenSpanInfo) (e : DerefEdgeInfo)
    (he : e ∈ (pfg.addEdge fromId toId si).derefEdges) :
    e ∈ pfg.derefEdges ∨ (e.fromId = fromId ∧ e.toId = toId) := by
  unfold PointerFlowGraph.addEdge at he
  dsimp only at he
  split at he
  · split at he
    · rcases (mem_insertSet _ _ _).mp he with h1 | h2
      · right; subst h1; exact ⟨rfl, rfl⟩
      · left; exact h2
    · left; exact he
  · left; exact he

/-- Coverage of a single edge record survives `add_edge`. -/
theorem covered_frame_addEdge (pfg : PointerFlowGraph)
    (fromId toId : GlobalProjectionId) (si : CtxtSenSpanInfo) (e : DerefEdgeInfo)
    (h : ((pfg.getProjectionNode? e.fromId).bind
      (fun n => lookupA n.neighbors e.toId)).isSome) :
    (((pfg.addEdge fromId toId si).getProjectionNode? e.fromId).bind
      (fun n => lookupA n.neighbors e.toId)).isSome := by
  cases hx : pfg.getProjectionNode? e.fromId with
  | none => rw [hx] at h; simp at h
  | some pn =>
    rw [hx] at h
    simp only [Option.some_bind] at h
    rw [getProjectionNode?_addEdge]
    by_cases hf : e.fromId = fromId
    · rw [if_pos hf, hx]
      simp only [Option.map_some', Option.some_bind]
      by_cases ht : e.toId = toId
      · subst ht; rw [lookupA_insertKV_self]; rfl
      · rw [lookupA_insertKV_ne _ _ _ _ ht]; exact h
    · rw [if_neg hf, hx]
      simp only [Option.some_bind]
      exact h

/-- After `add_edge from to`, the pair `(from, to)` itself is covered,
provided the `from` cell exists. -/
theorem covered_pair_addEdge (pfg : PointerFlowGraph)
    (fromId toId : GlobalProjectionId) (si : CtxtSenSpanInfo)
    (hf : (pfg.getProjectionNode? fromId).isSome) :
    (((pfg.addEdge fromId toId si).getProjectionNode? fromId).bind
      (fun n => lookupA n.neighbors toId)).isSome := by
  obtain ⟨pn, hpn⟩ := Option.isSome_iff_exists.mp hf
  rw [getProjectionNode?_addEdge, if_pos rfl, hpn]
  simp only [Option.map_some', Option.some_bind]
  rw [lookupA_insertKV_self]
  rfl

theorem derefEdges_updateProjNode (pfg : PointerFlowGraph)
    (g : GlobalProjectionId) (f : ProjectionNode → ProjectionNode) :
    (updateProjNode pfg g f).derefEdges = pfg.derefEdges := rfl

theorem derefCovered_addEdge (pfg : PointerFlowGraph)
    (fromId toId : GlobalProjectionId) (si : CtxtSenSpanInfo)
    (h : DerefCovered pfg) : DerefCovered (pfg.addEdge fromId toId si) := by
  intro e he
  by_cases hold : e ∈ pfg.derefEdges
  · exact covered_frame_addEdge pfg fromId toId si e (h e hold)
  · unfold PointerFlowGraph.addEdge at he
    dsimp only at he
    split at he
    · rename_i fromNode toNode hfrom hto
      split at he
      · rcases (mem_insertSet _ _ _).mp he with h1 | h2
        · subst h1
          dsimp only
          have hfsome : (pfg.getProjectionNode? fromId).isSome := by
            rw [getProjectionNode?_updateProjNode, if_pos rfl] at hfrom
            cases hg : pfg.getProjectionNode? fromId with
            | none => rw [hg] at hfrom; simp at hfrom
            | some _ => rfl
          exact covered_pair_addEdge pfg fromId toId si hfsome
        · rw [derefEdges_updateProjNode] at h2
          exact absurd h2 hold
      · rw [derefEdges_updateProjNode] at he
        exact absurd he hold
    · rename_i hmiss
      rw [derefEdges_updateProjNode] at he
      exact absurd he hold

/-! ## Helper lemmas: the analysis-level edge insertion -/

theorem addEdgeWL_of_hasEdge (s : LoopState) (fromId toId : GlobalProjectionId)
    (si : CtxtSenSpanInfo) (h : s.pfg.hasEdge fromId toId = true) :
    addEdgeWL s fromId toId si = s := by
  unfold addEdgeWL
  rw [if_pos h]

theorem addEdgeWL_of_new (s : LoopState) (fromId toId : GlobalProjectionId)
    (si : CtxtSenSpanInfo) (h : s.pfg.hasEdge fromId toId = false) :
    addEdgeWL s fromId toId si =
      { pfg := s.pfg.addEdge fromId toId si,
        worklist :=
          if ptsOf s.pfg fromId ≠ [] then
            s.worklist ++ [⟨toId, ptsOf s.pfg fromId⟩]
          else s.worklist } := by
  unfold addEdgeWL
  rw [if_neg (by simp [h])]
  dsimp only
  rw [ptsOf_addEdge]
  by_cases hp : ptsOf s.pfg fromId ≠ []
  · rw [if_pos hp, if_pos hp]
  · rw [if_neg hp, if_neg hp]

theorem pfg_addEdgeWL (s : LoopState) (fromId toId : GlobalProjectionId)
    (si : CtxtSenSpanInfo) :
    (addEdgeWL s fromId toId si).pfg = s.pfg ∨
      (addEdgeWL s fromId toId si).pfg = s.pfg.addEdge fromId toId si := by
  cases h : s.pfg.hasEdge fromId toId with
  | true => left; rw [addEdgeWL_of_hasEdge s fromId toId si h]
  | false => right; rw [addEdgeWL_of_new s fromId toId si h]

theorem ptsOf_addEdgeWL (s : LoopState) (fromId toId : GlobalProjectionId)
    (si : CtxtSenSpanInfo) (g : GlobalProjectionId) :
    ptsOf (addEdgeWL s fromId toId si).pfg g = ptsOf s.pfg g := by
  rcases pfg_addEdgeWL s fromId toId si with h | h
  · rw [h]
  · rw [h, ptsOf_addEdge]

theorem derefCovered_addEdgeWL (s : LoopState) (fromId toId : GlobalProjectionId)
    (si : CtxtSenSpanInfo) (h : DerefCovered s.pfg) :
    DerefCovered (addEdgeWL s fromId toId si).pfg := by
  rcases pfg_addEdgeWL s fromId toId si with hp | hp
  · rw [hp]; exact h
  · rw [hp]; exact derefCovered_addEdge s.pfg fromId toId si h

theorem hasEdge_addEdgeWL_self (s : LoopState) (fromId toId : GlobalProjectionId)
    (si : CtxtSenSpanInfo)
    (h1 : (s.pfg.getProjectionNode? fromId).isSome)
    (h2 : (lookupA s.pfg.nodes toId.gLocalId).isSome) :
    (addEdgeWL s fromId toId si).pfg.hasEdge fromId toId = true := by
  cases h : s.pfg.hasEdge fromId toId with
  | true => rw [addEdgeWL_of_hasEdge s fromId toId si h]; exact h
  | false =>
    rw [addEdgeWL_of_new s fromId toId si h]
    exact hasEdge_addEdge_self s.pfg fromId toId si h1 h2

/-- `add_edge` does not change which cells exist. -/
theorem nodes_isSome_addEdge (pfg : PointerFlowGraph)
    (fromId toId : GlobalProjectionId) (si : CtxtSenSpanInfo) (k : GlobalLocalId) :
    (lookupA (pfg.addEdge fromId toId si).nodes k).isSome =
      (lookupA pfg.nodes k).isSome := by
  rw [nodes_addEdge]
  unfold updateProjNode
  dsimp only
  rw [lookupA_updateA]
  by_cases hk : k = fromId.gLocalId
  · rw [if_pos hk]
    cases lookupA pfg.nodes k <;> rfl
  · rw [if_neg hk]

theorem getProjectionNode?_isSome_addEdge (pfg : PointerFlowGraph)
    (fromId toId : GlobalProjectionId) (si : CtxtSenSpanInfo)
    (g : GlobalProjectionId) :
    ((pfg.addEdge fromId toId si).getProjectionNode? g).isSome =
      ((pfg.getProjectionNode? g).isSome) := by
  rw [getProjectionNode?_addEdge]
  by_cases hg : g = fromId
  · rw [if_pos hg]
    cases pfg.getProjectionNode? g <;> rfl
  · rw [if_neg hg]


/-! ## Claim C5 -/

/-- C5: edge insertion into the pointer flow graph is idempotent —
re-adding an existing `(from, to)` edge changes nothing and schedules
nothing — and if the edge is new and the source cell's points-to set is
non-empty at insertion time, that set is immediately enqueued as a
worklist delta targeted at the destination cell. -/
theorem addEdgeWL_idempotent_and_schedules (s : LoopState)
    (fromId toId : GlobalProjectionId) (si : CtxtSenSpanInfo) :
    (s.pfg.hasEdge fromId toId = true → addEdgeWL s fromId toId si = s) ∧
    (s.pfg.hasEdge fromId toId = false → ptsOf s.pfg fromId ≠ [] →
      (addEdgeWL s fromId toId si).worklist =
        s.worklist ++ [⟨toId, ptsOf s.pfg fromId⟩] ∧
      (addEdgeWL s fromId toId si).pfg = s.pfg.addEdge fromId toId si) := by
  constructor
  · intro h
    exact addEdgeWL_of_hasEdge s fromId toId si h
  · intro h hp
    rw [addEdgeWL_of_new s fromId toId si h]
    rw [if_pos hp]
    exact ⟨rfl, rfl⟩

theorem addEdgeWL_idempotent_and_schedules_witness :
    (addEdgeWL
      ⟨PointerFlowGraph.addEdge
        ⟨[(⟨0, 1⟩, ⟨⟨0, 1⟩, [(0, ⟨0, [], [], [⟨⟨0, 1⟩, 0⟩], [], []⟩)]⟩),
          (⟨0, 2⟩, ⟨⟨0, 2⟩, [(0, ⟨0, [], [], [], [], []⟩)]⟩)], [], []⟩
        ⟨⟨0, 1⟩, 0⟩ ⟨⟨0, 2⟩, 0⟩ ⟨0, 0, 5, []⟩, []⟩
      ⟨⟨0, 1⟩, 0⟩ ⟨⟨0, 2⟩, 0⟩ ⟨0, 0, 5, []⟩ =
      ⟨PointerFlowGraph.addEdge
        ⟨[(⟨0, 1⟩, ⟨⟨0, 1⟩, [(0, ⟨0, [], [], [⟨⟨0, 1⟩, 0⟩], [], []⟩)]⟩),
          (⟨0, 2⟩, ⟨⟨0, 2⟩, [(0, ⟨0, [], [], [], [], []⟩)]⟩)], [], []⟩
        ⟨⟨0, 1⟩, 0⟩ ⟨⟨0, 2⟩, 0⟩ ⟨0, 0, 5, []⟩, []⟩) ∧
    ((addEdgeWL
      ⟨⟨[(⟨0, 1⟩, ⟨⟨0, 1⟩, [(0, ⟨0, [], [], [⟨⟨0, 1⟩, 0⟩], [], []⟩)]⟩),
         (⟨0, 2⟩, ⟨⟨0, 2⟩, [(0, ⟨0, [], [], [], [], []⟩)]⟩)], [], []⟩, []⟩
      ⟨⟨0, 1⟩, 0⟩ ⟨⟨0, 2⟩, 0⟩ ⟨0, 0, 5, []⟩).worklist =
      [] ++ [⟨⟨⟨0, 2⟩, 0⟩,
        ptsOf ⟨[(⟨0, 1⟩, ⟨⟨0, 1⟩, [(0, ⟨0, [], [], [⟨⟨0, 1⟩, 0⟩], [], []⟩)]⟩),
                (⟨0, 2⟩, ⟨⟨0, 2⟩, [(0, ⟨0, [], [], [], [], []⟩)]⟩)], [], []⟩
          ⟨⟨0, 1⟩, 0⟩⟩]) := by
  constructor
  · exact (addEdgeWL_idempotent_and_schedules _ _ _ _).1 (by decide)
  · exact ((addEdgeWL_idempotent_and_schedules _ _ _ _).2 (by decide) (by decide)).1

/-! ## Helper lemmas: the flow-edge relation -/

theorem edgeIn_of_hasEdge (pfg : PointerFlowGraph)
    (fromId toId : GlobalProjectionId) (h : pfg.hasEdge fromId toId = true) :
    edgeIn pfg fromId toId = true := by
  obtain ⟨_, pn, hpn, hnb⟩ := (hasEdge_iff pfg fromId toId).mp h
  unfold edgeIn
  rw [hpn, Option.some_bind]
  exact hnb

/-- A cell freshly materialized by `add_or_update_virtual_node` has an
empty neighbor map. -/
theorem addOrUpdateVirtualNode_new_neighbors (pfg : PointerFlowGraph)
    (callId : CtxtSenCallId) (localId : LocalId) (proj : List PlaceElem)
    (ds : Option CtxtSenSpanInfo) (f : GlobalProjectionId)
    (h : pfg.getProjectionNode? f = none) :
    ((pfg.addOrUpdateVirtualNode callId localId proj ds).1).getProjectionNode? f = none ∨
    ∃ pn', ((pfg.addOrUpdateVirtualNode callId localId proj ds).1).getProjectionNode? f = some pn' ∧
      pn'.neighbors = [] := by
  have hlem : ∀ (node : PfgNode),
      lookupA node.projectionNodes f.projectionId = none →
      (lookupA ((node.getOrAddProjection proj callId.callerContext).2.addDropSpanTo
          (node.getOrAddProjection proj callId.callerContext).1 ds).projectionNodes
        f.projectionId = none ∨
      ∃ pn', lookupA ((node.getOrAddProjection proj callId.callerContext).2.addDropSpanTo
          (node.getOrAddProjection proj callId.callerContext).1 ds).projectionNodes
        f.projectionId = some pn' ∧ pn'.neighbors = []) := by
    intro node hnone
    cases ht : node.tryGetProjectionId proj callId.callerContext with
    | some id =>
      rw [getOrAddProjection_found ht]
      cases ds with
      | none => left; exact hnone
      | some d =>
        rw [addDropSpanTo_some]
        dsimp only
        rw [lookupA_updateA]
        by_cases hj : f.projectionId = id
        · rw [if_pos hj, hnone]; left; rfl
        · rw [if_neg hj]; left; exact hnone
    | none =>
      rw [getOrAddProjection_missing ht]
      unfold PfgNode.addProjection
      dsimp only
      by_cases hj : f.projectionId = node.projectionNodes.length
      · have happ : lookupA (node.projectionNodes ++
            [(node.projectionNodes.length,
              ProjectionNode.mk node.projectionNodes.length callId.callerContext proj [] [] [])])
            f.projectionId =
            some (ProjectionNode.mk node.projectionNodes.length callId.callerContext proj [] [] []) := by
          rw [lookupA_append_right _ hnone, hj]
          simp [lookupA]
        cases ds with
        | none =>
          right
          exact ⟨_, happ, rfl⟩
        | some d =>
          rw [addDropSpanTo_some]
          dsimp only
          rw [lookupA_updateA]
          by_cases hj2 : f.projectionId = node.projectionNodes.length
          · rw [if_pos hj2, happ]
            right
            exact ⟨_, rfl, rfl⟩
          · exact absurd hj hj2
      · left
        have happ : lookupA (node.projectionNodes ++
            [(node.projectionNodes.length,
              ProjectionNode.mk node.projectionNodes.length callId.callerContext proj [] [] [])])
            f.projectionId = none := by
          rw [lookupA_append_right _ hnone]
          have hne : ¬ node.projectionNodes.length = f.projectionId :=
            fun hx => hj hx.symm
          simp [lookupA, hne]
        cases ds with
        | none => exact happ
        | some d =>
          rw [addDropSpanTo_some]
          dsimp only
          rw [lookupA_updateA]
          by_cases hj2 : f.projectionId = node.projectionNodes.length
          · exact absurd hj2 hj
          · rw [if_neg hj2]; exact happ
  unfold PointerFlowGraph.getProjectionNode? at h
  unfold PointerFlowGraph.addOrUpdateVirtualNode
  dsimp only
  by_cases hg : (lookupA pfg.nodes ⟨callId.defId, localId⟩).isSome
  · rw [if_pos hg]
    obtain ⟨node, hm⟩ := Option.isSome_iff_exists.mp hg
    rw [hm]
    dsimp only
    by_cases hgl : f.gLocalId = (⟨callId.defId, localId⟩ : GlobalLocalId)
    · have hnone : lookupA node.projectionNodes f.projectionId = none := by
        rw [hgl, hm] at h
        simpa using h
      rcases hlem node hnone with h1 | ⟨pn', h1, h2⟩
      · left
        unfold PointerFlowGraph.getProjectionNode?
        dsimp only
        rw [hgl, lookupA_insertKV_self, Option.some_bind]
        exact h1
      · right
        refine ⟨pn', ?_, h2⟩
        unfold PointerFlowGraph.getProjectionNode?
        dsimp only
        rw [hgl, lookupA_insertKV_self, Option.some_bind]
        exact h1
    · left
      unfold PointerFlowGraph.getProjectionNode?
      dsimp only
      rw [lookupA_insertKV_ne _ _ _ _ hgl]
      exact h
  · rw [if_neg hg]
    have hnone0 : lookupA pfg.nodes (⟨callId.defId, localId⟩ : GlobalLocalId) = none :=
      Option.not_isSome_iff_eq_none.mp hg
    have hlk : lookupA (pfg.nodes ++
        [((⟨callId.defId, localId⟩ : GlobalLocalId),
          PfgNode.mk ⟨callId.defId, localId⟩ [])]) ⟨callId.defId, localId⟩ =
        some (PfgNode.mk ⟨callId.defId, localId⟩ []) := by
      rw [lookupA_append_right _ hnone0]
      simp [lookupA]
    dsimp only
    rw [hlk]
    dsimp only
    by_cases hgl : f.gLocalId = (⟨callId.defId, localId⟩ : GlobalLocalId)
    · have hnone : lookupA (PfgNode.mk (⟨callId.defId, localId⟩ : GlobalLocalId) []).projectionNodes
          f.projectionId = none := by
        simp [lookupA]
      rcases hlem (PfgNode.mk ⟨callId.defId, localId⟩ []) hnone with h1 | ⟨pn', h1, h2⟩
      · left
        unfold PointerFlowGraph.getProjectionNode?
        dsimp only
        rw [hgl, lookupA_insertKV_self, Option.some_bind]
        exact h1
      · right
        refine ⟨pn', ?_, h2⟩
        unfold PointerFlowGraph.getProjectionNode?
        dsimp only
        rw [hgl, lookupA_insertKV_self, Option.some_bind]
        exact h1
    · left
      unfold PointerFlowGraph.getProjectionNode?
      dsimp only
      rw [lookupA_insertKV_ne _ _ _ _ hgl]
      cases hx : lookupA pfg.nodes f.gLocalId with
      | none => rw [lookupA_append_right _ hx]; simp [lookupA, fun hh : (⟨callId.defId, localId⟩ : GlobalLocalId) = f.gLocalId => hgl hh.symm]
      | some n =>
        rw [lookupA_append_left _ hx]
        rw [hx] at h
        simpa using h

/-- `add_or_update_virtual_node` neither adds nor removes flow edges. -/
theorem edgeIn_addOrUpdateVirtualNode (pfg : PointerFlowGraph)
    (callId : CtxtSenCallId) (localId : LocalId) (proj : List PlaceElem)
    (ds : Option CtxtSenSpanInfo) (f t : GlobalProjectionId) :
    edgeIn ((pfg.addOrUpdateVirtualNode callId localId proj ds).1) f t =
      edgeIn pfg f t := by
  unfold edgeIn
  cases hx : pfg.getProjectionNode? f with
  | some pn =>
    obtain ⟨pn', h', _, _, _, _, h5⟩ :=
      addOrUpdateVirtualNode_frame pfg callId localId proj ds f pn hx
    simp [h', hx, h5]
  | none =>
    rcases addOrUpdateVirtualNode_new_neighbors pfg callId localId proj ds f hx with h1 | ⟨pn', h1, h2⟩
    · simp [h1, hx]
    · simp [h1, hx, h2, lookupA]
theorem edgeIn_addEdge_other (pfg : PointerFlowGraph)
    (f2 t2 : GlobalProjectionId) (si : CtxtSenSpanInfo)
    (f t : GlobalProjectionId) (h : f ≠ f2 ∨ t ≠ t2) :
    edgeIn (pfg.addEdge f2 t2 si) f t = edgeIn pfg f t := by
  unfold edgeIn
  rw [getProjectionNode?_addEdge]
  by_cases hf : f = f2
  · rw [if_pos hf]
    have ht : t ≠ t2 := by
      rcases h with h1 | h1
      · exact absurd hf h1
      · exact h1
    cases hx : pfg.getProjectionNode? f with
    | none => rfl
    | some pn =>
      simp only [Option.map_some', Option.some_bind]
      rw [lookupA_insertKV_ne _ _ _ _ ht]
  · rw [if_neg hf]

theorem edgeIn_addEdge_self (pfg : PointerFlowGraph)
    (f t : GlobalProjectionId) (si : CtxtSenSpanInfo)
    (h : (pfg.getProjectionNode? f).isSome) :
    edgeIn (pfg.addEdge f t si) f t = true := by
  obtain ⟨pn, hpn⟩ := Option.isSome_iff_exists.mp h
  unfold edgeIn
  rw [getProjectionNode?_addEdge, if_pos rfl, hpn]
  simp only [Option.map_some', Option.some_bind]
  rw [lookupA_insertKV_self]
  rfl

theorem edgeIn_mono_addEdge (pfg : PointerFlowGraph)
    (f2 t2 : GlobalProjectionId) (si : CtxtSenSpanInfo)
    (f t : GlobalProjectionId) (h : edgeIn pfg f t = true) :
    edgeIn (pfg.addEdge f2 t2 si) f t = true := by
  by_cases hft : f = f2 ∧ t = t2
  · obtain ⟨hf, ht⟩ := hft
    subst hf; subst ht
    apply edgeIn_addEdge_self
    unfold edgeIn at h
    cases hx : pfg.getProjectionNode? f with
    | none => rw [hx] at h; simp at h
    | some pn => rfl
  · rw [edgeIn_addEdge_other pfg f2 t2 si f t (by tauto)]
    exact h

theorem edgeIn_addEdgeWL_self (s : LoopState)
    (f t : GlobalProjectionId) (si : CtxtSenSpanInfo)
    (h : (s.pfg.getProjectionNode? f).isSome) :
    edgeIn (addEdgeWL s f t si).pfg f t = true := by
  cases he : s.pfg.hasEdge f t with
  | true =>
    rw [addEdgeWL_of_hasEdge s f t si he]
    exact edgeIn_of_hasEdge s.pfg f t he
  | false =>
    rw [addEdgeWL_of_new s f t si he]
    exact edgeIn_addEdge_self s.pfg f t si h

theorem edgeIn_addEdgeWL_other (s : LoopState)
    (f2 t2 : GlobalProjectionId) (si : CtxtSenSpanInfo)
    (f t : GlobalProjectionId) (h : f ≠ f2 ∨ t ≠ t2) :
    edgeIn (addEdgeWL s f2 t2 si).pfg f t = edgeIn s.pfg f t := by
  rcases pfg_addEdgeWL s f2 t2 si with hp | hp
  · rw [hp]
  · rw [hp, edgeIn_addEdge_other s.pfg f2 t2 si f t h]

theorem edgeIn_mono_addEdgeWL (s : LoopState)
    (f2 t2 : GlobalProjectionId) (si : CtxtSenSpanInfo)
    (f t : GlobalProjectionId) (h : edgeIn s.pfg f t = true) :
    edgeIn (addEdgeWL s f2 t2 si).pfg f t = true := by
  rcases pfg_addEdgeWL s f2 t2 si with hp | hp
  · rw [hp]; exact h
  · rw [hp]; exact edgeIn_mono_addEdge s.pfg f2 t2 si f t h

theorem isPtrCopy_iff (env : Env) (d : DefId) (p : Place) :
    isPtrCopy env d p = true ↔
      ((env.tyOfPlace d p).isUnsafePtr = true ∨
       (env.tyOfPlace d p).isRef = true ∨
       PlaceElem.deref ∈ p.projection) := by
  unfold isPtrCopy
  cases hu : (env.tyOfPlace d p).isUnsafePtr <;>
    cases hr : (env.tyOfPlace d p).isRef <;>
      by_cases hd : PlaceElem.deref ∈ p.projection <;>
        simp [hu, hr, hd]

/-- Assignment half of C2 as a standalone lemma. -/
theorem processAssignment_edge_iff (env : Env) (c : ACtxt)
    (callId : CtxtSenCallId) (bbId : BasicBlockId) (a : AssignmentInfo)
    (rp : Place) (hr : a.rvalue = RvalKind.addressed rp) :
    edgeIn (processAssignment env c callId bbId a).pfg
        ((((c.pfg.addOrUpdateNode callId a.lvalue none).1).addOrUpdateNode callId rp none).2)
        ((c.pfg.addOrUpdateNode callId a.lvalue none).2) = true ↔
      (((a.op = OpKind.move ∨ a.op = OpKind.ref ∨ a.op = OpKind.addressOf) ∨
        (a.op = OpKind.copy ∧
          ((env.tyOfPlace callId.defId rp).isUnsafePtr = true ∨
           (env.tyOfPlace callId.defId rp).isRef = true ∨
           PlaceElem.deref ∈ rp.projection))) ∨
       edgeIn c.pfg
         ((((c.pfg.addOrUpdateNode callId a.lvalue none).1).addOrUpdateNode callId rp none).2)
         ((c.pfg.addOrUpdateNode callId a.lvalue none).2) = true) := by
  have hedge : ∀ (hq : True),
      edgeIn (addEdgeWL
        ⟨(((c.pfg.addOrUpdateNode callId a.lvalue none).1).addOrUpdateNode callId rp none).1,
          c.worklist⟩
        ((((c.pfg.addOrUpdateNode callId a.lvalue none).1).addOrUpdateNode callId rp none).2)
        ((c.pfg.addOrUpdateNode callId a.lvalue none).2)
        ⟨callId.defId, bbId, a.statSpan, []⟩).pfg
        ((((c.pfg.addOrUpdateNode callId a.lvalue none).1).addOrUpdateNode callId rp none).2)
        ((c.pfg.addOrUpdateNode callId a.lvalue none).2) = true := by
    intro _
    apply edgeIn_addEdgeWL_self
    exact addOrUpdateVirtualNode_found _ _ _ _ _
  unfold processAssignment
  rw [hr]
  cases hop : a.op with
  | move =>
    simp only []
    constructor
    · intro _; exact Or.inl (Or.inl (Or.inl (by trivial)))
    · intro _; exact hedge trivial
  | ref =>
    simp only []
    constructor
    · intro _; exact Or.inl (Or.inl (Or.inr (Or.inl (by trivial))))
    · intro _; exact hedge trivial
  | addressOf =>
    simp only []
    constructor
    · intro _; exact Or.inl (Or.inl (Or.inr (Or.inr (by trivial))))
    · intro _; exact hedge trivial
  | copy =>
    simp only []
    cases hq : isPtrCopy env callId.defId rp with
    | true =>
      simp only [if_pos rfl]
      constructor
      · intro _
        exact Or.inl (Or.inr ⟨by trivial, (isPtrCopy_iff env callId.defId rp).mp hq⟩)
      · intro _; exact hedge trivial
    | false =>
      simp only [Bool.false_eq_true, if_false]
      constructor
      · intro h; exact Or.inr h
      · intro h
        rcases h with (⟨h1 | h1 | h1⟩ | ⟨_, h2⟩) | h3
        · exact absurd h1 (by simp)
        · exact absurd h1 (by simp)
        · exact absurd h1 (by simp)
        · have := (isPtrCopy_iff env callId.defId rp).mpr h2
          rw [hq] at this
          exact absurd this (by simp)
        · exact h3


theorem getProjectionNode?_isSome_addOrUpdateVirtualNode (pfg : PointerFlowGraph)
    (callId : CtxtSenCallId) (localId : LocalId) (proj : List PlaceElem)
    (ds : Option CtxtSenSpanInfo) (g : GlobalProjectionId)
    (h : (pfg.getProjectionNode? g).isSome) :
    (((pfg.addOrUpdateVirtualNode callId localId proj ds).1).getProjectionNode? g).isSome := by
  obtain ⟨pn, hpn⟩ := Option.isSome_iff_exists.mp h
  obtain ⟨pn', h', _⟩ := addOrUpdateVirtualNode_frame pfg callId localId proj ds g pn hpn
  rw [h']
  rfl

theorem gLocalId_addOrUpdateNode (pfg : PointerFlowGraph)
    (callId : CtxtSenCallId) (place : Place) (ds : Option CtxtSenSpanInfo) :
    ((pfg.addOrUpdateNode callId place ds).2).gLocalId =
      ⟨callId.defId, place.localId⟩ :=
  gLocalId_addOrUpdateVirtualNode pfg callId place.localId place.projection ds

theorem addRetEdge_edgeIn_mono (s : LoopState) (callerCfg : ControlFlowGraph)
    (caller calleeId : CtxtSenCallId) (ci : CallInfo) (si : CtxtSenSpanInfo)
    (f t : GlobalProjectionId) (h : edgeIn s.pfg f t = true) :
    edgeIn (addRetEdge s callerCfg caller calleeId ci si).pfg f t = true := by
  unfold addRetEdge
  cases hd : lookupA callerCfg.localInfos ci.destination.localId with
  | none => exact h
  | some dl =>
    dsimp only
    by_cases hu : !dl.ty.isUnit
    · rw [if_pos hu]
      apply edgeIn_mono_addEdgeWL
      show edgeIn ((s.pfg.addOrUpdateVirtualNode calleeId 0 [] none).1.addOrUpdateVirtualNode
        caller ci.destination.localId ci.destination.projection none).1 f t = true
      rw [edgeIn_addOrUpdateVirtualNode, edgeIn_addOrUpdateVirtualNode]
      exact h
    · rw [if_neg hu]; exact h

theorem addRetEdge_edgeIn_frame (s : LoopState) (callerCfg : ControlFlowGraph)
    (caller calleeId : CtxtSenCallId) (ci : CallInfo) (si : CtxtSenSpanInfo)
    (f t : GlobalProjectionId) (hf : f.gLocalId.defId ≠ calleeId.defId) :
    edgeIn (addRetEdge s callerCfg caller calleeId ci si).pfg f t =
      edgeIn s.pfg f t := by
  unfold addRetEdge
  cases hd : lookupA callerCfg.localInfos ci.destination.localId with
  | none => rfl
  | some dl =>
    dsimp only
    by_cases hu : !dl.ty.isUnit
    · rw [if_pos hu]
      have hne : f ≠ (s.pfg.addOrUpdateNode calleeId ⟨0, []⟩ none).2 := by
        intro hc
        apply hf
        rw [hc, gLocalId_addOrUpdateNode]
      rw [edgeIn_addEdgeWL_other _ _ _ _ _ _ (Or.inl hne)]
      show edgeIn ((s.pfg.addOrUpdateVirtualNode calleeId 0 [] none).1.addOrUpdateVirtualNode
        caller ci.destination.localId ci.destination.projection none).1 f t = edgeIn s.pfg f t
      rw [edgeIn_addOrUpdateVirtualNode, edgeIn_addOrUpdateVirtualNode]
    · rw [if_neg hu]

/-- Argument half of C2: a single `Copy` argument at a resolved call
site gets an argument→parameter flow edge exactly under the
pointer/deref rule. -/
theorem addArgsAndRetEdge_copy_iff (env : Env) (s : LoopState)
    (callerCfg : ControlFlowGraph) (caller : CtxtSenCallId) (ci : CallInfo)
    (tc : CallerContext) (p : Place)
    (hargs : ci.args = [Operand.copy p])
    (hne : caller.defId ≠ ci.calleeDefId) :
    edgeIn (addArgsAndRetEdge env s callerCfg caller ci tc).pfg
        ((s.pfg.addOrUpdateNode caller p none).2)
        (((s.pfg.addOrUpdateNode caller p none).1.addOrUpdateNode
          ⟨ci.calleeDefId, tc⟩ ⟨1, []⟩ none).2) = true ↔
      (((env.tyOfPlace caller.defId p).isUnsafePtr = true ∨
        (env.tyOfPlace caller.defId p).isRef = true ∨
        PlaceElem.deref ∈ p.projection) ∨
       edgeIn s.pfg
         ((s.pfg.addOrUpdateNode caller p none).2)
         (((s.pfg.addOrUpdateNode caller p none).1.addOrUpdateNode
           ⟨ci.calleeDefId, tc⟩ ⟨1, []⟩ none).2) = true) := by
  unfold addArgsAndRetEdge
  rw [hargs]
  have henum : ([Operand.copy p]).enum = [(0, Operand.copy p)] := rfl
  rw [henum]
  simp only [List.foldl_cons, List.foldl_nil]
  cases hq : isPtrCopy env caller.defId p with
  | true =>
    have harg : addArgEdgeStep env caller ⟨ci.calleeDefId, tc⟩
        ⟨caller.defId, ci.callerBbId, ci.span, []⟩ s (0, Operand.copy p) =
        addEdgeWL
          ⟨{ ((s.pfg.addOrUpdateNode caller p none).1.addOrUpdateNode
              ⟨ci.calleeDefId, tc⟩ ⟨1, []⟩ none).1 with
              derefEdges := insertSet
                ((s.pfg.addOrUpdateNode caller p none).1.addOrUpdateNode
                  ⟨ci.calleeDefId, tc⟩ ⟨1, []⟩ none).1.derefEdges
                ⟨(s.pfg.addOrUpdateNode caller p none).2,
                 ((s.pfg.addOrUpdateNode caller p none).1.addOrUpdateNode
                   ⟨ci.calleeDefId, tc⟩ ⟨1, []⟩ none).2, (true, false)⟩ },
            s.worklist⟩
          ((s.pfg.addOrUpdateNode caller p none).2)
          (((s.pfg.addOrUpdateNode caller p none).1.addOrUpdateNode
            ⟨ci.calleeDefId, tc⟩ ⟨1, []⟩ none).2)
          ⟨caller.defId, ci.callerBbId, ci.span, []⟩ := by
      simp [addArgEdgeStep, argPlaceAndQualifies, hq]
    rw [harg]
    constructor
    · intro _
      exact Or.inl ((isPtrCopy_iff env caller.defId p).mp hq)
    · intro _
      apply addRetEdge_edgeIn_mono
      apply edgeIn_addEdgeWL_self
      show (((s.pfg.addOrUpdateNode caller p none).1.addOrUpdateNode
        ⟨ci.calleeDefId, tc⟩ ⟨1, []⟩ none).1.getProjectionNode?
          ((s.pfg.addOrUpdateNode caller p none).2)).isSome
      apply getProjectionNode?_isSome_addOrUpdateVirtualNode
      exact addOrUpdateVirtualNode_found _ _ _ _ _
  | false =>
    have harg : addArgEdgeStep env caller ⟨ci.calleeDefId, tc⟩
        ⟨caller.defId, ci.callerBbId, ci.span, []⟩ s (0, Operand.copy p) = s := by
      simp [addArgEdgeStep, argPlaceAndQualifies, hq]
    rw [harg]
    have hfr := addRetEdge_edgeIn_frame s callerCfg caller ⟨ci.calleeDefId, tc⟩ ci
      ⟨caller.defId, ci.callerBbId, ci.span, []⟩
      ((s.pfg.addOrUpdateNode caller p none).2)
      (((s.pfg.addOrUpdateNode caller p none).1.addOrUpdateNode
        ⟨ci.calleeDefId, tc⟩ ⟨1, []⟩ none).2)
      (by rw [gLocalId_addOrUpdateNode]; exact hne)
    rw [hfr]
    constructor
    · intro h; exact Or.inr h
    · intro h
      rcases h with hc | h2
      · have := (isPtrCopy_iff env caller.defId p).mpr hc
        rw [hq] at this
        exact absurd this (by simp)
      · exact h2


/-! ## Claim C2 -/

/-- C2: for an assignment whose right-hand side is an addressed place, a
flow edge from the right cell to the left cell is added when the
operation is `Move`, `Ref` or `AddressOf`, and for `Copy` exactly when
the right-hand place's static type is a raw pointer or reference type or
its access path contains a `Deref`; the same `Copy` rule governs
argument-to-parameter edges at resolved call sites. -/
theorem assignment_and_arg_copy_rule :
    (∀ (env : Env) (c : ACtxt) (callId : CtxtSenCallId) (bbId : BasicBlockId)
        (a : AssignmentInfo) (rp : Place), a.rvalue = RvalKind.addressed rp →
      (edgeIn (processAssignment env c callId bbId a).pfg
          ((((c.pfg.addOrUpdateNode callId a.lvalue none).1).addOrUpdateNode callId rp none).2)
          ((c.pfg.addOrUpdateNode callId a.lvalue none).2) = true ↔
        (((a.op = OpKind.move ∨ a.op = OpKind.ref ∨ a.op = OpKind.addressOf) ∨
          (a.op = OpKind.copy ∧
            ((env.tyOfPlace callId.defId rp).isUnsafePtr = true ∨
             (env.tyOfPlace callId.defId rp).isRef = true ∨
             PlaceElem.deref ∈ rp.projection))) ∨
         edgeIn c.pfg
           ((((c.pfg.addOrUpdateNode callId a.lvalue none).1).addOrUpdateNode callId rp none).2)
           ((c.pfg.addOrUpdateNode callId a.lvalue none).2) = true))) ∧
    (∀ (env : Env) (s : LoopState) (callerCfg : ControlFlowGraph)
        (caller : CtxtSenCallId) (ci : CallInfo) (tc : CallerContext) (p : Place),
      ci.args = [Operand.copy p] → caller.defId ≠ ci.calleeDefId →
      (edgeIn (addArgsAndRetEdge env s callerCfg caller ci tc).pfg
          ((s.pfg.addOrUpdateNode caller p none).2)
          (((s.pfg.addOrUpdateNode caller p none).1.addOrUpdateNode
            ⟨ci.calleeDefId, tc⟩ ⟨1, []⟩ none).2) = true ↔
        (((env.tyOfPlace caller.defId p).isUnsafePtr = true ∨
          (env.tyOfPlace caller.defId p).isRef = true ∨
          PlaceElem.deref ∈ p.projection) ∨
         edgeIn s.pfg
           ((s.pfg.addOrUpdateNode caller p none).2)
           (((s.pfg.addOrUpdateNode caller p none).1.addOrUpdateNode
             ⟨ci.calleeDefId, tc⟩ ⟨1, []⟩ none).2) = true))) := by
  constructor
  · intro env c callId bbId a rp hr
    exact processAssignment_edge_iff env c callId bbId a rp hr
  · intro env s callerCfg caller ci tc p hargs hne
    exact addArgsAndRetEdge_copy_iff env s callerCfg caller ci tc p hargs hne

theorem assignment_and_arg_copy_rule_witness :
    (edgeIn (processAssignment ⟨fun _ _ => Ty.other, fun _ => none, fun _ => "f"⟩
        ⟨[], PointerFlowGraph.empty, [], []⟩ ⟨0, []⟩ 0
        ⟨⟨1, []⟩, RvalKind.addressed ⟨2, []⟩, 7, OpKind.move⟩).pfg
      ((((PointerFlowGraph.empty.addOrUpdateNode ⟨0, []⟩ ⟨1, []⟩ none).1).addOrUpdateNode
        ⟨0, []⟩ ⟨2, []⟩ none).2)
      ((PointerFlowGraph.empty.addOrUpdateNode ⟨0, []⟩ ⟨1, []⟩ none).2) = true) ∧
    (edgeIn (addArgsAndRetEdge ⟨fun _ _ => Ty.rawPtr, fun _ => none, fun _ => "g"⟩
        ⟨PointerFlowGraph.empty, []⟩ ⟨9, [], [], []⟩ ⟨0, []⟩
        ⟨1, 0, [Operand.copy ⟨3, []⟩], ⟨0, []⟩, 8⟩ [⟨0, 0⟩]).pfg
      ((PointerFlowGraph.empty.addOrUpdateNode ⟨0, []⟩ ⟨3, []⟩ none).2)
      (((PointerFlowGraph.empty.addOrUpdateNode ⟨0, []⟩ ⟨3, []⟩ none).1.addOrUpdateNode
        ⟨1, [⟨0, 0⟩]⟩ ⟨1, []⟩ none).2) = true) := by
  constructor
  · exact (assignment_and_arg_copy_rule.1 _ _ _ _ _ _ rfl).mpr
      (Or.inl (Or.inl (Or.inl rfl)))
  · exact (assignment_and_arg_copy_rule.2 _ _ _ _ _ _ _ rfl (by decide)).mpr
      (Or.inl (Or.inl rfl))
theorem derefEdges_mono_addEdge (pfg : PointerFlowGraph)
    (fromId toId : GlobalProjectionId) (si : CtxtSenSpanInfo)
    (e : DerefEdgeInfo) (h : e ∈ pfg.derefEdges) :
    e ∈ (pfg.addEdge fromId toId si).derefEdges := by
  unfold PointerFlowGraph.addEdge
  dsimp only
  split
  · split
    · exact (mem_insertSet _ _ _).mpr (Or.inr h)
    · exact h
  · exact h

theorem derefEdges_mono_addEdgeWL (s : LoopState)
    (fromId toId : GlobalProjectionId) (si : CtxtSenSpanInfo)
    (e : DerefEdgeInfo) (h : e ∈ s.pfg.derefEdges) :
    e ∈ (addEdgeWL s fromId toId si).pfg.derefEdges := by
  rcases pfg_addEdgeWL s fromId toId si with hp | hp
  · rw [hp]; exact h
  · rw [hp]; exact derefEdges_mono_addEdge s.pfg fromId toId si e h

theorem derefEdges_mono_addRetEdge (s : LoopState)
    (callerCfg : ControlFlowGraph) (caller calleeId : CtxtSenCallId)
    (ci : CallInfo) (si : CtxtSenSpanInfo) (e : DerefEdgeInfo)
    (h : e ∈ s.pfg.derefEdges) :
    e ∈ (addRetEdge s callerCfg caller calleeId ci si).pfg.derefEdges := by
  unfold addRetEdge
  split
  · exact h
  · split
    · apply derefEdges_mono_addEdgeWL
      show e ∈ ((s.pfg.addOrUpdateVirtualNode calleeId 0 [] none).1.addOrUpdateVirtualNode
        caller ci.destination.localId ci.destination.projection none).1.derefEdges
      rw [derefEdges_addOrUpdateVirtualNode, derefEdges_addOrUpdateVirtualNode]
      exact h
    · exact h

/-! ## Claim C3 -/

/-- C3 (counterexample): at a concrete resolved call with one `Move`
argument and a unit destination, the deref-edge record created for the
argument→parameter edge carries flags `(true, false)` — dereferenced on
the source side only — and no record flagged on both sides exists,
refuting "marked as dereferenced on both the source side and the
destination side". -/
theorem addArgsAndRetEdge_not_both_sides :
    (addArgsAndRetEdge ⟨fun _ _ => Ty.other, fun _ => none, fun _ => "f"⟩
        ⟨PointerFlowGraph.empty, []⟩
        ⟨0, [(0, ⟨0, false, Ty.unit, none, 0⟩)], [], []⟩
        ⟨0, []⟩ ⟨1, 0, [Operand.move ⟨2, []⟩], ⟨0, []⟩, 3⟩
        [⟨0, 0⟩]).pfg.derefEdges =
      [⟨⟨⟨0, 2⟩, 0⟩, ⟨⟨1, 1⟩, 0⟩, (true, false)⟩] ∧
    DerefEdgeInfo.mk ⟨⟨0, 2⟩, 0⟩ ⟨⟨1, 1⟩, 0⟩ (true, true) ∉
      (addArgsAndRetEdge ⟨fun _ _ => Ty.other, fun _ => none, fun _ => "f"⟩
        ⟨PointerFlowGraph.empty, []⟩
        ⟨0, [(0, ⟨0, false, Ty.unit, none, 0⟩)], [], []⟩
        ⟨0, []⟩ ⟨1, 0, [Operand.move ⟨2, []⟩], ⟨0, []⟩, 3⟩
        [⟨0, 0⟩]).pfg.derefEdges := by
  constructor
  · rfl
  · decide

/-- C3 (amended): for every resolved call and qualifying `Move`
argument, the deref-edge record created for the argument→parameter edge
is marked as dereferenced on the source (argument) side only, with flags
`(true, false)`. -/
theorem addArgsAndRetEdge_marks_source_deref (env : Env) (s : LoopState)
    (callerCfg : ControlFlowGraph) (caller : CtxtSenCallId) (ci : CallInfo)
    (tc : CallerContext) (p : Place) (hargs : ci.args = [Operand.move p]) :
    DerefEdgeInfo.mk
        ((s.pfg.addOrUpdateNode caller p none).2)
        (((s.pfg.addOrUpdateNode caller p none).1.addOrUpdateNode
          ⟨ci.calleeDefId, tc⟩ ⟨1, []⟩ none).2)
        (true, false) ∈
      (addArgsAndRetEdge env s callerCfg caller ci tc).pfg.derefEdges := by
  unfold addArgsAndRetEdge
  rw [hargs]
  have henum : ([Operand.move p]).enum = [(0, Operand.move p)] := rfl
  rw [henum]
  simp only [List.foldl_cons, List.foldl_nil]
  apply derefEdges_mono_addRetEdge
  have harg : addArgEdgeStep env caller ⟨ci.calleeDefId, tc⟩
      ⟨caller.defId, ci.callerBbId, ci.span, []⟩ s (0, Operand.move p) =
      addEdgeWL
        ⟨{ ((s.pfg.addOrUpdateNode caller p none).1.addOrUpdateNode
            ⟨ci.calleeDefId, tc⟩ ⟨1, []⟩ none).1 with
            derefEdges := insertSet
              ((s.pfg.addOrUpdateNode caller p none).1.addOrUpdateNode
                ⟨ci.calleeDefId, tc⟩ ⟨1, []⟩ none).1.derefEdges
              ⟨(s.pfg.addOrUpdateNode caller p none).2,
               ((s.pfg.addOrUpdateNode caller p none).1.addOrUpdateNode
                 ⟨ci.calleeDefId, tc⟩ ⟨1, []⟩ none).2, (true, false)⟩ },
          s.worklist⟩
        ((s.pfg.addOrUpdateNode caller p none).2)
        (((s.pfg.addOrUpdateNode caller p none).1.addOrUpdateNode
          ⟨ci.calleeDefId, tc⟩ ⟨1, []⟩ none).2)
        ⟨caller.defId, ci.callerBbId, ci.span, []⟩ := by
    simp [addArgEdgeStep, argPlaceAndQualifies]
  rw [harg]
  apply derefEdges_mono_addEdgeWL
  show DerefEdgeInfo.mk _ _ (true, false) ∈ insertSet
    ((s.pfg.addOrUpdateNode caller p none).1.addOrUpdateNode
      ⟨ci.calleeDefId, tc⟩ ⟨1, []⟩ none).1.derefEdges
    ⟨(s.pfg.addOrUpdateNode caller p none).2,
     ((s.pfg.addOrUpdateNode caller p none).1.addOrUpdateNode
       ⟨ci.calleeDefId, tc⟩ ⟨1, []⟩ none).2, (true, false)⟩
  exact (mem_insertSet _ _ _).mpr (Or.inl rfl)

theorem addArgsAndRetEdge_marks_source_deref_witness :
    DerefEdgeInfo.mk
        ((PointerFlowGraph.empty.addOrUpdateNode ⟨0, []⟩ ⟨2, []⟩ none).2)
        (((PointerFlowGraph.empty.addOrUpdateNode ⟨0, []⟩ ⟨2, []⟩ none).1.addOrUpdateNode
          ⟨1, [⟨0, 0⟩]⟩ ⟨1, []⟩ none).2)
        (true, false) ∈
      (addArgsAndRetEdge ⟨fun _ _ => Ty.other, fun _ => none, fun _ => "f"⟩
        ⟨PointerFlowGraph.empty, []⟩
        ⟨0, [(0, ⟨0, false, Ty.unit, none, 0⟩)], [], []⟩
        ⟨0, []⟩ ⟨1, 0, [Operand.move ⟨2, []⟩], ⟨0, []⟩, 3⟩
        [⟨0, 0⟩]).pfg.derefEdges :=
  addArgsAndRetEdge_marks_source_deref _ _ _ _ _ _ _ rfl

/-! ## Claim C4 -/

/-- C4 (counterexample): for a concrete call whose callee's name
suffix-matches the pass-through allow-list (`as_ref`), no IR is
materialized for the callee — but a synthetic argument→destination flow
edge IS added by the conservative fallback, refuting "no synthetic flow
edge of any kind is added for that call". -/
theorem processCalls_allowlist_adds_fallback_edge :
    (processCalls
        ⟨fun _ _ => Ty.other, fun _ => none,
         fun d => if d = 1 then "x::as_ref" else "main"⟩ 2
        ⟨[(0, ⟨0, [(0, ⟨0, false, Ty.other, none, 0⟩)], [],
            [(0, ⟨1, 0, [Operand.move ⟨2, []⟩], ⟨0, []⟩, 3⟩)]⟩)],
         PointerFlowGraph.empty, [], []⟩
        [⟨0, []⟩]).pfg.hasEdge ⟨⟨0, 2⟩, 0⟩ ⟨⟨0, 0⟩, 0⟩ = true ∧
    lookupA (processCalls
        ⟨fun _ _ => Ty.other, fun _ => none,
         fun d => if d = 1 then "x::as_ref" else "main"⟩ 2
        ⟨[(0, ⟨0, [(0, ⟨0, false, Ty.other, none, 0⟩)], [],
            [(0, ⟨1, 0, [Operand.move ⟨2, []⟩], ⟨0, []⟩, 3⟩)]⟩)],
         PointerFlowGraph.empty, [], []⟩
        [⟨0, []⟩]).cfgs 1 = none := by
  constructor
  · decide
  · decide

/-- C4 (amended): for a callee matching the pass-through allow-list, no
IR is materialized (`try_create_cfg` is never consulted), but the call
is then handled by the unresolved-callee fallback, which — for a
non-unit destination — does add a synthetic flow edge from each
qualifying argument cell to the caller's destination cell. -/
theorem allowlist_skips_ir_but_fallback_adds_edge :
    (∀ (env : Env) (cfgs : List (DefId × ControlFlowGraph)) (callee : DefId),
      lookupA cfgs callee = none →
      argToRetDefNames.any (fun s2 => strEndsWith (env.defName callee) s2) = true →
      tryMaterializeCallee env cfgs callee = none) ∧
    (∀ (env : Env) (s : LoopState) (callerCfg : ControlFlowGraph)
        (caller : CtxtSenCallId) (ci : CallInfo) (p : Place)
        (dl : LocalInfo),
      ci.args = [Operand.move p] →
      lookupA callerCfg.localInfos ci.destination.localId = some dl →
      dl.ty.isUnit = false →
      edgeIn (addArgsToRetEdge env s callerCfg caller ci).pfg
        (((s.pfg.addOrUpdateNode caller ci.destination none).1.addOrUpdateNode
          caller p none).2)
        ((s.pfg.addOrUpdateNode caller ci.destination none).2) = true) := by
  constructor
  · intro env cfgs callee hn hmatch
    unfold tryMaterializeCallee
    rw [hn]
    simp only [Option.isSome_none, Bool.false_eq_true, if_false]
    rw [if_pos hmatch]
  · intro env s callerCfg caller ci p dl hargs hd hu
    unfold addArgsToRetEdge
    split
    · rename_i hnone
      rw [hd] at hnone
      exact Option.noConfusion hnone
    · rename_i dl' hsome
      rw [hd] at hsome
      have hdl : dl = dl' := by injection hsome
      subst hdl
      dsimp only
      rw [if_pos (by rw [hu]; rfl)]
      rw [hargs]
      simp only [List.foldl_cons, List.foldl_nil]
      have hstep : addArgToRetStep env caller
          ((s.pfg.addOrUpdateNode caller ci.destination none).2)
          ⟨caller.defId, ci.callerBbId, ci.span, []⟩
          ⟨(s.pfg.addOrUpdateNode caller ci.destination none).1, s.worklist⟩
          (Operand.move p) =
          addEdgeWL
            ⟨{ ((s.pfg.addOrUpdateNode caller ci.destination none).1.addOrUpdateNode
                caller p none).1 with
                derefEdges := insertSet
                  ((s.pfg.addOrUpdateNode caller ci.destination none).1.addOrUpdateNode
                    caller p none).1.derefEdges
                  ⟨((s.pfg.addOrUpdateNode caller ci.destination none).1.addOrUpdateNode
                     caller p none).2,
                   (s.pfg.addOrUpdateNode caller ci.destination none).2, (true, false)⟩ },
              s.worklist⟩
            (((s.pfg.addOrUpdateNode caller ci.destination none).1.addOrUpdateNode
              caller p none).2)
            ((s.pfg.addOrUpdateNode caller ci.destination none).2)
            ⟨caller.defId, ci.callerBbId, ci.span, []⟩ := by
        simp [addArgToRetStep, argPlaceAndQualifies]
      rw [hstep]
      apply edgeIn_addEdgeWL_self
      exact addOrUpdateVirtualNode_found _ _ _ _ _

theorem allowlist_skips_ir_but_fallback_adds_edge_witness :
    tryMaterializeCallee
      ⟨fun _ _ => Ty.other, fun _ => none,
       fun d => if d = 1 then "x::as_ref" else "main"⟩ [] 1 = none ∧
    edgeIn (addArgsToRetEdge
        ⟨fun _ _ => Ty.other, fun _ => none,
         fun d => if d = 1 then "x::as_ref" else "main"⟩
        ⟨PointerFlowGraph.empty, []⟩
        ⟨0, [(0, ⟨0, false, Ty.other, none, 0⟩)], [],
         [(0, ⟨1, 0, [Operand.move ⟨2, []⟩], ⟨0, []⟩, 3⟩)]⟩
        ⟨0, []⟩ ⟨1, 0, [Operand.move ⟨2, []⟩], ⟨0, []⟩, 3⟩).pfg
      (((PointerFlowGraph.empty.addOrUpdateNode ⟨0, []⟩ ⟨0, []⟩ none).1.addOrUpdateNode
        ⟨0, []⟩ ⟨2, []⟩ none).2)
      ((PointerFlowGraph.empty.addOrUpdateNode ⟨0, []⟩ ⟨0, []⟩ none).2) = true := by
  constructor
  · exact allowlist_skips_ir_but_fallback_adds_edge.1 _ _ _ (by decide) (by decide)
  · exact allowlist_skips_ir_but_fallback_adds_edge.2 _ _ _ _ _ _
      ⟨0, false, Ty.other, none, 0⟩ rfl (by decide) (by decide)

/-! ## Claim C8 -/

/-- C8: two raw findings with the same location pair, one resolving to
no variable name and one resolving to `Some "buf"`, merge to exactly one
result carrying `Some "buf"`, in either merge order. -/
theorem mergeUafInfos_prefers_named :
    mergeUafInfos
        [(0, ⟨0, [(1, ⟨1, true, Ty.other, none, 0⟩),
                  (2, ⟨2, true, Ty.other, some "buf", 0⟩)], [], []⟩)]
        [⟨⟨⟨0, 1⟩, 0⟩, ⟨0, 0, 100, []⟩, ⟨⟨0, 1⟩, 0⟩, ⟨0, 1, 200, []⟩⟩,
         ⟨⟨⟨0, 1⟩, 0⟩, ⟨0, 0, 100, []⟩, ⟨⟨0, 2⟩, 0⟩, ⟨0, 1, 200, []⟩⟩] =
      [(⟨100, 200⟩, [⟨100, none, 200, some "buf"⟩])] ∧
    mergeUafInfos
        [(0, ⟨0, [(1, ⟨1, true, Ty.other, none, 0⟩),
                  (2, ⟨2, true, Ty.other, some "buf", 0⟩)], [], []⟩)]
        [⟨⟨⟨0, 1⟩, 0⟩, ⟨0, 0, 100, []⟩, ⟨⟨0, 2⟩, 0⟩, ⟨0, 1, 200, []⟩⟩,
         ⟨⟨⟨0, 1⟩, 0⟩, ⟨0, 0, 100, []⟩, ⟨⟨0, 1⟩, 0⟩, ⟨0, 1, 200, []⟩⟩] =
      [(⟨100, 200⟩, [⟨100, none, 200, some "buf"⟩])] := by
  constructor
  · rfl
  · rfl

/-! ## Claim C9 -/

/-- C9 (counterexample): with a successful front-end compilation and a
non-empty UAF finding set, the process exit code is still `0` — findings
do not make the completion status nonzero, refuting "nonzero exit status
if and only if at least one finding was emitted". -/
theorem mcMainExitCode_zero_despite_finding :
    mcMainExitCode false ⟨[(⟨1, 2⟩, [⟨1, none, 2, none⟩])], []⟩ = 0 ∧
    CheckResultModel.hasFinding ⟨[(⟨1, 2⟩, [⟨1, none, 2, none⟩])], []⟩ = true := by
  constructor
  · rfl
  · rfl

/-- C9 (amended): the process exit status is nonzero if and only if the
front-end compilation failed; the findings of a successful run never
influence it (`after_analysis` always returns `Compilation::Continue`
and `main` exits with `is_err as i32`). -/
theorem mcMainExitCode_iff_compilation_failed
    (compilationFailed : Bool) (cr : CheckResultModel) :
    mcMainExitCode compilationFailed cr ≠ 0 ↔ compilationFailed = true := by
  unfold mcMainExitCode analysisThenCheckIsErr
  cases compilationFailed with
  | true => simp
  | false => simp

theorem mcMainExitCode_iff_compilation_failed_witness :
    mcMainExitCode true ⟨[], []⟩ ≠ 0 ∧
    ¬ (mcMainExitCode false ⟨[(⟨1, 2⟩, [⟨1, none, 2, none⟩])], []⟩ ≠ 0) := by
  constructor
  · exact (mcMainExitCode_iff_compilation_failed true ⟨[], []⟩).mpr rfl
  · intro h
    exact absurd ((mcMainExitCode_iff_compilation_failed false _).mp h) (by decide)
/-- Membership in the findings of `add_uaf_infos`. -/
theorem mem_addUafInfos_iff (cfgs : List (DefId × ControlFlowGraph))
    (fuel : Nat) (pfg : PointerFlowGraph) (dpid : GlobalProjectionId)
    (dsi : CtxtSenSpanInfo) (u : UafInfo) :
    u ∈ addUafInfos cfgs fuel pfg dpid dsi ↔
      u.derefProjId = dpid ∧ u.derefSpan = dsi ∧
      u.dropObjId ∈ ptsOf pfg dpid ∧
      u.dropSpan ∈ dropSpansOf pfg u.dropObjId ∧
      (canBasicBlockArrive cfgs fuel []
        ⟨u.dropSpan.defId, u.dropSpan.basicBlockId⟩
        ⟨dsi.defId, dsi.basicBlockId⟩).1 = true ∧
      (⟨u.dropSpan.defId, u.dropSpan.basicBlockId⟩ : GlobalBasicBlockId) ≠
        ⟨dsi.defId, dsi.basicBlockId⟩ := by
  unfold addUafInfos
  rw [List.mem_flatMap]
  constructor
  · rintro ⟨O, hO, hu⟩
    rw [List.mem_flatMap] at hu
    obtain ⟨si, hsi, hu⟩ := hu
    dsimp only at hu
    split at hu
    · rename_i hcond
      rcases List.mem_singleton.mp hu with rfl
      exact ⟨rfl, rfl, hO, hsi, hcond.1, hcond.2⟩
    · exact absurd hu (List.not_mem_nil u)
  · rintro ⟨h1, h2, h3, h4, h5, h6⟩
    refine ⟨u.dropObjId, h3, ?_⟩
    rw [List.mem_flatMap]
    refine ⟨u.dropSpan, h4, ?_⟩
    dsimp only
    rw [if_pos ⟨h5, h6⟩]
    rw [List.mem_singleton]
    cases u
    simp only at h1 h2
    rw [h1, h2]

/-- Membership in `check_uaf`'s findings, by generating deref edge. -/
theorem mem_checkUaf_iff (cfgs : List (DefId × ControlFlowGraph))
    (fuel : Nat) (pfg : PointerFlowGraph) (u : UafInfo) :
    u ∈ checkUaf cfgs fuel pfg ↔
      ∃ e ∈ pfg.derefEdges, ∃ ni,
        (pfg.getProjectionNode? e.fromId).bind
          (fun n => lookupA n.neighbors e.toId) = some ni ∧
        ((e.isDeref.1 = true ∧ u ∈ addUafInfos cfgs fuel pfg e.fromId ni.spanInfo) ∨
         (e.isDeref.2 = true ∧ u ∈ addUafInfos cfgs fuel pfg e.toId ni.spanInfo)) := by
  unfold checkUaf
  rw [List.mem_flatMap]
  constructor
  · rintro ⟨e, he, hu⟩
    refine ⟨e, he, ?_⟩
    cases hni : (pfg.getProjectionNode? e.fromId).bind
        (fun n => lookupA n.neighbors e.toId) with
    | none => rw [hni] at hu; exact absurd hu (List.not_mem_nil u)
    | some ni =>
      rw [hni] at hu
      dsimp only at hu
      rw [List.mem_append] at hu
      refine ⟨ni, rfl, ?_⟩
      rcases hu with hu | hu
      · left
        cases hflag : e.isDeref.1 with
        | true => rw [hflag] at hu; simp only [if_true] at hu; exact ⟨rfl, hu⟩
        | false => rw [hflag] at hu; simp at hu
      · right
        cases hflag : e.isDeref.2 with
        | true => rw [hflag] at hu; simp only [if_true] at hu; exact ⟨rfl, hu⟩
        | false => rw [hflag] at hu; simp at hu
  · rintro ⟨e, he, ni, hni, hcase⟩
    refine ⟨e, he, ?_⟩
    rw [hni]
    dsimp only
    rw [List.mem_append]
    rcases hcase with ⟨hflag, hu⟩ | ⟨hflag, hu⟩
    · left; rw [hflag]; simpa using hu
    · right; rw [hflag]; simpa using hu

/-! ## Claim C1 -/

/-- C1: for every recorded deref edge, every abstract object `O` in the
points-to set of a deref-flagged endpoint `p`, and every destructor site
`s` of `O`'s owning cell, a UAF finding `(deref_location,
drop_location)` is emitted if and only if the destructor's basic block
can reach the deref edge's basic block under the interprocedural
reachability oracle and the two blocks differ. -/
theorem checkUaf_emits_iff (cfgs : List (DefId × ControlFlowGraph))
    (fuel : Nat) (pfg : PointerFlowGraph) (e : DerefEdgeInfo)
    (ni : ProjectionNeighborInfo) (p : GlobalProjectionId)
    (O : DropObjectId) (s : CtxtSenSpanInfo)
    (he : e ∈ pfg.derefEdges)
    (hni : (pfg.getProjectionNode? e.fromId).bind
      (fun n => lookupA n.neighbors e.toId) = some ni)
    (hp : (p = e.fromId ∧ e.isDeref.1 = true) ∨
          (p = e.toId ∧ e.isDeref.2 = true))
    (hO : O ∈ ptsOf pfg p) (hs : s ∈ dropSpansOf pfg O) :
    UafInfo.mk p ni.spanInfo O s ∈ checkUaf cfgs fuel pfg ↔
      ((canBasicBlockArrive cfgs fuel []
          ⟨s.defId, s.basicBlockId⟩
          ⟨ni.spanInfo.defId, ni.spanInfo.basicBlockId⟩).1 = true ∧
       (⟨s.defId, s.basicBlockId⟩ : GlobalBasicBlockId) ≠
         ⟨ni.spanInfo.defId, ni.spanInfo.basicBlockId⟩) := by
  constructor
  · intro hmem
    obtain ⟨e2, _, ni2, _, hcase⟩ := (mem_checkUaf_iff cfgs fuel pfg _).mp hmem
    rcases hcase with ⟨_, hu⟩ | ⟨_, hu⟩ <;>
    · obtain ⟨_, h2, _, _, h5, h6⟩ := (mem_addUafInfos_iff _ _ _ _ _ _).mp hu
      have h2b : ni.spanInfo = ni2.spanInfo := by simpa using h2
      rw [h2b]
      exact ⟨h5, h6⟩
  · intro hcond
    apply (mem_checkUaf_iff cfgs fuel pfg _).mpr
    refine ⟨e, he, ni, hni, ?_⟩
    rcases hp with ⟨hpe, hflag⟩ | ⟨hpe, hflag⟩
    · left
      refine ⟨hflag, (mem_addUafInfos_iff _ _ _ _ _ _).mpr ?_⟩
      refine ⟨by simp [hpe], rfl, ?_, ?_, hcond.1, hcond.2⟩
      · show O ∈ ptsOf pfg e.fromId
        rw [← hpe]; exact hO
      · exact hs
    · right
      refine ⟨hflag, (mem_addUafInfos_iff _ _ _ _ _ _).mpr ?_⟩
      refine ⟨by simp [hpe], rfl, ?_, ?_, hcond.1, hcond.2⟩
      · show O ∈ ptsOf pfg e.toId
        rw [← hpe]; exact hO
      · exact hs

theorem checkUaf_emits_iff_witness :
    UafInfo.mk ⟨⟨0, 1⟩, 0⟩ ⟨0, 1, 50, []⟩ ⟨⟨0, 1⟩, 0⟩ ⟨0, 0, 40, []⟩ ∈
      checkUaf
        [(0, ⟨0, [],
          [(0, ⟨0, false, [1], [], ⟨TerminatorKind.other, 0⟩⟩),
           (1, ⟨1, false, [], [], ⟨TerminatorKind.other, 0⟩⟩)], []⟩)]
        5
        ⟨[(⟨0, 1⟩, ⟨⟨0, 1⟩,
            [(0, ⟨0, [], [PlaceElem.deref], [⟨⟨0, 1⟩, 0⟩], [⟨0, 0, 40, []⟩],
              [(⟨⟨0, 2⟩, 0⟩, ⟨⟨⟨0, 2⟩, 0⟩, ⟨0, 1, 50, []⟩⟩)]⟩)]⟩),
          (⟨0, 2⟩, ⟨⟨0, 2⟩, [(0, ⟨0, [], [], [], [], []⟩)]⟩)],
         [⟨⟨⟨0, 1⟩, 0⟩, ⟨⟨0, 2⟩, 0⟩, (true, false)⟩], []⟩ := by
  apply (checkUaf_emits_iff _ 5 _
    ⟨⟨⟨0, 1⟩, 0⟩, ⟨⟨0, 2⟩, 0⟩, (true, false)⟩
    ⟨⟨⟨0, 2⟩, 0⟩, ⟨0, 1, 50, []⟩⟩
    ⟨⟨0, 1⟩, 0⟩ ⟨⟨0, 1⟩, 0⟩ ⟨0, 0, 40, []⟩
    (by decide) (by decide) (Or.inl ⟨rfl, rfl⟩) (by decide) (by decide)).mpr
  exact ⟨by decide, by decide⟩
/-! ## Helper lemmas: points-to monotonicity -/

theorem ptsOf_updateProjNode_extend (s : LoopState) (cur : GlobalProjectionId)
    (delta : List DropObjectId) (g : GlobalProjectionId) :
    ptsOf s.pfg g ⊆
      ptsOf (updateProjNode s.pfg cur
        (fun pn => { pn with pointsTo := extendSet pn.pointsTo delta })) g := by
  unfold ptsOf
  rw [getProjectionNode?_updateProjNode]
  by_cases hg : g = cur
  · rw [if_pos hg]
    cases hx : s.pfg.getProjectionNode? g with
    | none => intro x hx2; simp at hx2
    | some pn =>
      dsimp only [Option.map_some']
      exact subset_extendSet pn.pointsTo delta
  · rw [if_neg hg]
    exact fun x hx => hx

theorem ptsOf_propagate_subset (s : LoopState) (cur : GlobalProjectionId)
    (delta : List DropObjectId) (g : GlobalProjectionId) :
    ptsOf s.pfg g ⊆ ptsOf (propagate s cur delta).pfg g := by
  unfold propagate
  by_cases hd : delta = []
  · rw [if_pos hd]
    exact fun x hx => hx
  · rw [if_neg hd]
    dsimp only
    have step1 := ptsOf_updateProjNode_extend s cur delta g
    cases h1 : (updateProjNode s.pfg cur
        (fun pn => { pn with pointsTo := extendSet pn.pointsTo delta })).getProjectionNode? cur with
    | none =>
      dsimp only
      exact step1
    | some curPn =>
      dsimp only
      -- the multi-drop insertion leaves `nodes` unchanged
      have step2 : ∀ (pfgx : PointerFlowGraph),
          ptsOf pfgx g ⊆ ptsOf
            (if curPn.csDropSpans ≠ [] ∧ (cur : DropObjectId) ∉ pfgx.multiDropObjects ∧
                1 < curPn.pointsTo.length then
              { pfgx with multiDropObjects := insertSet pfgx.multiDropObjects cur }
            else pfgx) g := by
        intro pfgx
        split
        · exact fun x hx => hx
        · exact fun x hx => hx
      intro x hx
      have hx1 := step1 hx
      have hx2 := step2 _ hx1
      set pfg2 := (if curPn.csDropSpans ≠ [] ∧ (cur : DropObjectId) ∉
          (updateProjNode s.pfg cur
            (fun pn => { pn with pointsTo := extendSet pn.pointsTo delta })).multiDropObjects ∧
          1 < curPn.pointsTo.length then
        { (updateProjNode s.pfg cur
            (fun pn => { pn with pointsTo := extendSet pn.pointsTo delta })) with
            multiDropObjects := insertSet (updateProjNode s.pfg cur
              (fun pn => { pn with pointsTo := extendSet pn.pointsTo delta })).multiDropObjects cur }
      else (updateProjNode s.pfg cur
        (fun pn => { pn with pointsTo := extendSet pn.pointsTo delta }))) with hpfg2
      cases h2 : lookupA pfg2.nodes cur.gLocalId with
      | none =>
        dsimp only
        exact hx2
      | some node =>
        dsimp only
        -- the virtual-node fold only grows points-to sets
        have foldmono : ∀ (l : List (CtxtSenCallId × GlobalLocalId × List PlaceElem))
            (acc : PointerFlowGraph × List PointsTo),
            ptsOf acc.1 g ⊆ ptsOf (l.foldl
              (fun (acc : PointerFlowGraph × List PointsTo)
                  (item : CtxtSenCallId × GlobalLocalId × List PlaceElem) =>
                ((acc.1.addOrUpdateVirtualNode item.1 item.2.1.localId item.2.2 none).1,
                 acc.2 ++ [PointsTo.mk
                   (acc.1.addOrUpdateVirtualNode item.1 item.2.1.localId item.2.2 none).2 delta]))
              acc).1 g := by
          intro l
          induction l with
          | nil => intro acc x hxa; exact hxa
          | cons it l ih =>
            intro acc x hxa
            rw [List.foldl_cons]
            apply ih
            exact ptsOf_addOrUpdateVirtualNode_subset acc.1 it.1 it.2.1.localId it.2.2 none g hxa
        exact foldmono _ _ hx2

theorem ptsOf_runLoop_subset (fuel : Nat) :
    ∀ (s s' : LoopState) (g : GlobalProjectionId),
    runLoop fuel s = some s' → ptsOf s.pfg g ⊆ ptsOf s'.pfg g := by
  induction fuel with
  | zero =>
    intro s s' g h
    unfold runLoop at h
    split at h
    · injection h with h; subst h; exact fun x hx => hx
    · exact absurd h (by simp)
  | succ f ih =>
    intro s s' g h
    unfold runLoop at h
    split at h
    · injection h with h; subst h; exact fun x hx => hx
    · rename_i p rest hw
      intro x hx
      exact ih _ s' g h
        (ptsOf_propagate_subset { pfg := s.pfg, worklist := rest } p.gProjId _ g hx)

theorem propagate_nil (s : LoopState) (cur : GlobalProjectionId) :
    propagate s cur [] = s := by
  unfold propagate
  rw [if_pos rfl]

theorem loopBody_empty_delta (s : LoopState) (p : PointsTo)
    (h : deltaOf s p = []) : loopBody s p = s := by
  unfold loopBody
  rw [h]
  exact propagate_nil s p.gProjId

/-- C6: points-to sets only grow during the fixpoint loop: `propagate`
never removes an element from any cell's points-to set, any terminating
run of the worklist loop only extends every cell's set, and a worklist
pop whose computed delta (incoming minus current) is empty leaves the
state unchanged. -/
theorem pointsTo_monotone_and_empty_delta_noop :
    (∀ (s : LoopState) (cur : GlobalProjectionId) (delta : List DropObjectId)
        (g : GlobalProjectionId),
      ptsOf s.pfg g ⊆ ptsOf (propagate s cur delta).pfg g) ∧
    (∀ (fuel : Nat) (s s' : LoopState) (g : GlobalProjectionId),
      runLoop fuel s = some s' → ptsOf s.pfg g ⊆ ptsOf s'.pfg g) ∧
    (∀ (s : LoopState) (p : PointsTo),
      deltaOf s p = [] → loopBody s p = s) :=
  ⟨ptsOf_propagate_subset, ptsOf_runLoop_subset, loopBody_empty_delta⟩

/-- Witness: the three conjuncts of the C6 theorem applied at a concrete
one-node graph whose single cell already holds object `oC6`. -/
theorem pointsTo_monotone_and_empty_delta_noop_witness :
    oC6 ∈ ptsOf (propagate sC6 gC6 [⟨⟨0, 3⟩, 0⟩]).pfg gC6 ∧
    oC6 ∈ ptsOf sC6.pfg gC6 ∧
    loopBody sC6 ⟨gC6, [oC6]⟩ = sC6 := by
  refine ⟨?_, ?_, ?_⟩
  · exact pointsTo_monotone_and_empty_delta_noop.1 sC6 gC6 [⟨⟨0, 3⟩, 0⟩] gC6 (by decide)
  · exact pointsTo_monotone_and_empty_delta_noop.2.1 1
      { pfg := pfgC6, worklist := [⟨gC6, [oC6]⟩] } sC6 gC6 (by decide) (by decide)
  · exact pointsTo_monotone_and_empty_delta_noop.2.2 sC6 ⟨gC6, [oC6]⟩ (by decide)

/-! ## Helper lemmas: deref-edge coverage through the pipeline -/

theorem derefCovered_iff_edgeIn (pfg : PointerFlowGraph) :
    DerefCovered pfg ↔ ∀ e ∈ pfg.derefEdges, edgeIn pfg e.fromId e.toId = true :=
  Iff.rfl

theorem edgeIn_set_derefEdges (pfg : PointerFlowGraph) (d : List DerefEdgeInfo)
    (f t : GlobalProjectionId) :
    edgeIn { pfg with derefEdges := d } f t = edgeIn pfg f t := rfl

theorem edgeIn_updateProjNode (pfg : PointerFlowGraph) (g : GlobalProjectionId)
    (f : ProjectionNode → ProjectionNode)
    (hf : ∀ pn, (f pn).neighbors = pn.neighbors)
    (a b : GlobalProjectionId) :
    edgeIn (updateProjNode pfg g f) a b = edgeIn pfg a b := by
  unfold edgeIn
  rw [getProjectionNode?_updateProjNode]
  by_cases h : a = g
  · rw [if_pos h]
    cases hx : pfg.getProjectionNode? a with
    | none => rfl
    | some pn => simp [hf pn]
  · rw [if_neg h]

theorem derefCovered_insert_addEdgeWL (pfg : PointerFlowGraph)
    (wl : List PointsTo) (f t : GlobalProjectionId) (flags : Bool × Bool)
    (si : CtxtSenSpanInfo) (hcov : DerefCovered pfg)
    (hf : (pfg.getProjectionNode? f).isSome) :
    DerefCovered (addEdgeWL
      ⟨{ pfg with derefEdges := insertSet pfg.derefEdges ⟨f, t, flags⟩ }, wl⟩
      f t si).pfg := by
  intro e he
  have hself : edgeIn (addEdgeWL
      ⟨{ pfg with derefEdges := insertSet pfg.derefEdges ⟨f, t, flags⟩ }, wl⟩
      f t si).pfg f t = true :=
    edgeIn_addEdgeWL_self _ f t si hf
  have hmem : e ∈ insertSet pfg.derefEdges ⟨f, t, flags⟩ ∨
      (e.fromId = f ∧ e.toId = t) := by
    rcases pfg_addEdgeWL
        ⟨{ pfg with derefEdges := insertSet pfg.derefEdges ⟨f, t, flags⟩ }, wl⟩
        f t si with hp | hp
    · rw [hp] at he; exact Or.inl he
    · rw [hp] at he
      exact derefEdges_addEdge_sub _ f t si e he
  have hmain : e ∈ pfg.derefEdges ∨ (e.fromId = f ∧ e.toId = t) := by
    rcases hmem with hm | hm
    · rcases (mem_insertSet _ _ _).mp hm with h1 | h1
      · right; rw [h1]; exact ⟨rfl, rfl⟩
      · exact Or.inl h1
    · exact Or.inr hm
  show edgeIn _ e.fromId e.toId = true
  rcases hmain with hm | ⟨h1, h2⟩
  · have hold : edgeIn pfg e.fromId e.toId = true := hcov e hm
    have hold3 : edgeIn
        { pfg with derefEdges := insertSet pfg.derefEdges ⟨f, t, flags⟩ }
        e.fromId e.toId = true := by
      rw [edgeIn_set_derefEdges]; exact hold
    exact edgeIn_mono_addEdgeWL _ f t si e.fromId e.toId hold3
  · rw [h1, h2]
    exact hself

theorem derefCovered_addOrUpdateNode (pfg : PointerFlowGraph)
    (callId : CtxtSenCallId) (place : Place) (ds : Option CtxtSenSpanInfo)
    (h : DerefCovered pfg) :
    DerefCovered ((pfg.addOrUpdateNode callId place ds).1) :=
  derefCovered_addOrUpdateVirtualNode pfg callId place.localId place.projection ds h

theorem derefCovered_processDropTerminator (c : ACtxt) (callId : CtxtSenCallId)
    (bbId : BasicBlockId) (term : Terminator) (h : DerefCovered c.pfg) :
    DerefCovered (processDropTerminator c callId bbId term).pfg := by
  unfold processDropTerminator
  cases term.kind with
  | other => exact h
  | drop place =>
    dsimp only
    split
    · exact derefCovered_addOrUpdateNode c.pfg callId place _ h
    · exact derefCovered_addOrUpdateNode c.pfg callId place _ h

theorem derefCovered_processAssignment (env : Env) (c : ACtxt)
    (callId : CtxtSenCallId) (bbId : BasicBlockId) (a : AssignmentInfo)
    (h : DerefCovered c.pfg) :
    DerefCovered (processAssignment env c callId bbId a).pfg := by
  unfold processAssignment
  cases a.rvalue with
  | constant => exact h
  | addressed place =>
    dsimp only
    split
    · exact derefCovered_addEdgeWL _ _ _ _
        (derefCovered_addOrUpdateNode _ callId place none
          (derefCovered_addOrUpdateNode c.pfg callId a.lvalue none h))
    · exact h

theorem derefCovered_addReachable (env : Env) (c : ACtxt)
    (callId : CtxtSenCallId) (h : DerefCovered c.pfg) :
    DerefCovered (addReachable env c callId).pfg := by
  unfold addReachable
  split
  · exact h
  · cases hc : lookupA c.cfgs callId.defId with
    | none => exact h
    | some cfg =>
      dsimp only
      have hfold : ∀ (bbs : List (BasicBlockId × BasicBlockInfo)) (c0 : ACtxt),
          DerefCovered c0.pfg →
          DerefCovered (bbs.foldl
            (fun c p =>
              let c := processDropTerminator c callId p.1 p.2.terminator
              p.2.assignmentInfos.foldl
                (fun c a => processAssignment env c callId p.1 a) c)
            c0).pfg := by
        intro bbs
        induction bbs with
        | nil => intro c0 hc0; exact hc0
        | cons bb bbs ih =>
          intro c0 hc0
          rw [List.foldl_cons]
          apply ih
          have hdrop := derefCovered_processDropTerminator c0 callId bb.1
            bb.2.terminator hc0
          have hassign : ∀ (asgs : List AssignmentInfo) (c1 : ACtxt),
              DerefCovered c1.pfg →
              DerefCovered (asgs.foldl
                (fun c a => processAssignment env c callId bb.1 a) c1).pfg := by
            intro asgs
            induction asgs with
            | nil => intro c1 hc1; exact hc1
            | cons a asgs ih2 =>
              intro c1 hc1
              rw [List.foldl_cons]
              exact ih2 _ (derefCovered_processAssignment env c1 callId bb.1 a hc1)
          exact hassign _ _ hdrop
      exact hfold _ _ h

theorem derefCovered_addArgEdgeStep (env : Env) (caller calleeId : CtxtSenCallId)
    (si : CtxtSenSpanInfo) (s : LoopState) (ip : Nat × Operand)
    (h : DerefCovered s.pfg) :
    DerefCovered (addArgEdgeStep env caller calleeId si s ip).pfg := by
  unfold addArgEdgeStep
  cases hq : argPlaceAndQualifies env caller.defId ip.2 with
  | none => exact h
  | some pq =>
    obtain ⟨argPlace, qualifies⟩ := pq
    dsimp only
    split
    · exact derefCovered_insert_addEdgeWL _ s.worklist _ _ (true, false) si
        (derefCovered_addOrUpdateNode _ calleeId ⟨ip.1 + 1, []⟩ none
          (derefCovered_addOrUpdateNode s.pfg caller argPlace none h))
        (getProjectionNode?_isSome_addOrUpdateVirtualNode _ calleeId (ip.1 + 1) [] none _
          (addOrUpdateVirtualNode_found s.pfg caller argPlace.localId
            argPlace.projection none))
    · exact h

theorem derefCovered_addRetEdge (s : LoopState) (callerCfg : ControlFlowGraph)
    (caller calleeId : CtxtSenCallId) (ci : CallInfo) (si : CtxtSenSpanInfo)
    (h : DerefCovered s.pfg) :
    DerefCovered (addRetEdge s callerCfg caller calleeId ci si).pfg := by
  unfold addRetEdge
  cases hd : lookupA callerCfg.localInfos ci.destination.localId with
  | none => exact h
  | some dl =>
    dsimp only
    split
    · exact derefCovered_addEdgeWL _ _ _ _
        (derefCovered_addOrUpdateNode _ caller ci.destination none
          (derefCovered_addOrUpdateNode s.pfg calleeId ⟨0, []⟩ none h))
    · exact h

theorem derefCovered_addArgsAndRetEdge (env : Env) (s : LoopState)
    (callerCfg : ControlFlowGraph) (caller : CtxtSenCallId) (ci : CallInfo)
    (tc : CallerContext) (h : DerefCovered s.pfg) :
    DerefCovered (addArgsAndRetEdge env s callerCfg caller ci tc).pfg := by
  unfold addArgsAndRetEdge
  dsimp only
  apply derefCovered_addRetEdge
  have hfold : ∀ (l : List (Nat × Operand)) (s0 : LoopState),
      DerefCovered s0.pfg →
      DerefCovered ((l.foldl (addArgEdgeStep env caller ⟨ci.calleeDefId, tc⟩
        ⟨caller.defId, ci.callerBbId, ci.span, []⟩) s0)).pfg := by
    intro l
    induction l with
    | nil => intro s0 h0; exact h0
    | cons x l ih =>
      intro s0 h0
      rw [List.foldl_cons]
      exact ih _ (derefCovered_addArgEdgeStep env caller _ _ s0 x h0)
  exact hfold _ _ h

theorem derefCovered_addArgToRetStep (env : Env) (caller : CtxtSenCallId)
    (retId : GlobalProjectionId) (si : CtxtSenSpanInfo) (s : LoopState)
    (arg : Operand) (h : DerefCovered s.pfg) :
    DerefCovered (addArgToRetStep env caller retId si s arg).pfg := by
  unfold addArgToRetStep
  cases hq : argPlaceAndQualifies env caller.defId arg with
  | none => exact h
  | some pq =>
    obtain ⟨argPlace, qualifies⟩ := pq
    dsimp only
    split
    · exact derefCovered_insert_addEdgeWL _ s.worklist _ retId (true, false) si
        (derefCovered_addOrUpdateNode s.pfg caller argPlace none h)
        (addOrUpdateVirtualNode_found s.pfg caller argPlace.localId
          argPlace.projection none)
    · exact h

theorem derefCovered_addArgsToRetEdge (env : Env) (s : LoopState)
    (callerCfg : ControlFlowGraph) (caller : CtxtSenCallId) (ci : CallInfo)
    (h : DerefCovered s.pfg) :
    DerefCovered (addArgsToRetEdge env s callerCfg caller ci).pfg := by
  unfold addArgsToRetEdge
  dsimp only
  cases hd : lookupA callerCfg.localInfos ci.destination.localId with
  | none => exact h
  | some dl =>
    dsimp only
    split
    · have hfold : ∀ (l : List Operand) (s0 : LoopState),
          DerefCovered s0.pfg →
          DerefCovered ((l.foldl (addArgToRetStep env caller
            (s.pfg.addOrUpdateNode caller ci.destination none).2
            ⟨caller.defId, ci.callerBbId, ci.span, []⟩) s0)).pfg := by
        intro l
        induction l with
        | nil => intro s0 h0; exact h0
        | cons x l ih =>
          intro s0 h0
          rw [List.foldl_cons]
          exact ih _ (derefCovered_addArgToRetStep env caller _ _ s0 x h0)
      exact hfold _ _ (derefCovered_addOrUpdateNode s.pfg caller ci.destination none h)
    · exact h

theorem derefCovered_callFold (env : Env) (cfgs : List (DefId × ControlFlowGraph))
    (callerCfg : ControlFlowGraph) (caller : CtxtSenCallId)
    (l : List (BasicBlockId × CallInfo)) :
    ∀ (acc : LoopState × List CtxtSenCallId), DerefCovered acc.1.pfg →
    DerefCovered ((l.foldl
      (fun (acc : LoopState × List CtxtSenCallId) p =>
        if (lookupA cfgs p.2.calleeDefId).isSome then
          let targetContext : CallerContext := [⟨caller.defId, p.1⟩]
          let calleeId : CtxtSenCallId := ⟨p.2.calleeDefId, targetContext⟩
          (addArgsAndRetEdge env acc.1 callerCfg caller p.2 targetContext,
           acc.2 ++ [calleeId])
        else
          let defName := env.defName p.2.calleeDefId
          if ignoreDefNames.any (fun s2 => strEndsWith defName s2) then acc
          else (addArgsToRetEdge env acc.1 callerCfg caller p.2, acc.2))
      acc).1).pfg := by
  induction l with
  | nil => intro acc h; exact h
  | cons x l ih =>
    intro acc h
    rw [List.foldl_cons]
    apply ih
    dsimp only
    split
    · exact derefCovered_addArgsAndRetEdge env acc.1 callerCfg caller x.2 _ h
    · split
      · exact h
      · exact derefCovered_addArgsToRetEdge env acc.1 callerCfg caller x.2 h

theorem derefCovered_processCalls (env : Env) (fuel : Nat) :
    ∀ (c : ACtxt) (l : List CtxtSenCallId), DerefCovered c.pfg →
    DerefCovered (processCalls env fuel c l).pfg := by
  induction fuel with
  | zero =>
    intro c l h
    cases l with
    | nil => exact h
    | cons x xs => exact h
  | succ f ih =>
    intro c l h
    cases l with
    | nil => exact h
    | cons caller rest =>
      unfold processCalls
      split
      · exact ih _ _ h
      · dsimp only
        cases hc : lookupA (addReachable env c caller).cfgs caller.defId with
        | none =>
          exact ih _ _ (derefCovered_addReachable env c caller h)
        | some callerCfg =>
          dsimp only
          apply ih
          exact derefCovered_callFold env _ callerCfg caller callerCfg.callInfos _
            (derefCovered_addReachable env c caller h)

theorem derefCovered_propagate (s : LoopState) (cur : GlobalProjectionId)
    (delta : List DropObjectId) (h : DerefCovered s.pfg) :
    DerefCovered (propagate s cur delta).pfg := by
  unfold propagate
  split
  · exact h
  · dsimp only
    have h1 : DerefCovered (updateProjNode s.pfg cur
        (fun pn => { pn with pointsTo := extendSet pn.pointsTo delta })) := by
      intro e he
      rw [derefEdges_updateProjNode] at he
      show edgeIn _ e.fromId e.toId = true
      rw [edgeIn_updateProjNode s.pfg cur
        (fun pn => { pn with pointsTo := extendSet pn.pointsTo delta })
        (fun pn => rfl) e.fromId e.toId]
      exact h e he
    cases hcur : (updateProjNode s.pfg cur
        (fun pn => { pn with pointsTo := extendSet pn.pointsTo delta })).getProjectionNode?
        cur with
    | none => exact h1
    | some curPn =>
      dsimp only
      have h2 : ∀ (pfgx : PointerFlowGraph), DerefCovered pfgx →
          DerefCovered (if curPn.csDropSpans ≠ [] ∧ (cur : DropObjectId) ∉
              pfgx.multiDropObjects ∧ 1 < curPn.pointsTo.length then
            { pfgx with multiDropObjects := insertSet pfgx.multiDropObjects cur }
          else pfgx) := by
        intro pfgx hx
        split
        · exact hx
        · exact hx
      have h2' := h2 _ h1
      cases h3 : lookupA (if curPn.csDropSpans ≠ [] ∧ (cur : DropObjectId) ∉
          (updateProjNode s.pfg cur
            (fun pn => { pn with pointsTo := extendSet pn.pointsTo delta })).multiDropObjects ∧
          1 < curPn.pointsTo.length then
        { (updateProjNode s.pfg cur
            (fun pn => { pn with pointsTo := extendSet pn.pointsTo delta })) with
            multiDropObjects := insertSet (updateProjNode s.pfg cur
              (fun pn => { pn with pointsTo := extendSet pn.pointsTo delta })).multiDropObjects
              cur }
      else (updateProjNode s.pfg cur
        (fun pn => { pn with pointsTo := extendSet pn.pointsTo delta }))).nodes
        cur.gLocalId with
      | none => exact h2'
      | some node =>
        dsimp only
        have foldcov : ∀ (l : List (CtxtSenCallId × GlobalLocalId × List PlaceElem))
            (acc : PointerFlowGraph × List PointsTo), DerefCovered acc.1 →
            DerefCovered (l.foldl
              (fun (acc : PointerFlowGraph × List PointsTo)
                  (item : CtxtSenCallId × GlobalLocalId × List PlaceElem) =>
                ((acc.1.addOrUpdateVirtualNode item.1 item.2.1.localId item.2.2 none).1,
                 acc.2 ++ [PointsTo.mk
                   (acc.1.addOrUpdateVirtualNode item.1 item.2.1.localId item.2.2 none).2
                   delta]))
              acc).1 := by
          intro l
          induction l with
          | nil => intro acc ha; exact ha
          | cons it l ih =>
            intro acc ha
            rw [List.foldl_cons]
            apply ih
            exact derefCovered_addOrUpdateVirtualNode acc.1 it.1 it.2.1.localId it.2.2
              none ha
        exact foldcov _ _ h2'

theorem derefCovered_runLoop (fuel : Nat) :
    ∀ (s s' : LoopState), runLoop fuel s = some s' →
    DerefCovered s.pfg → DerefCovered s'.pfg := by
  induction fuel with
  | zero =>
    intro s s' h hc
    unfold runLoop at h
    split at h
    · injection h with h; subst h; exact hc
    · exact absurd h (by simp)
  | succ f ih =>
    intro s s' h hc
    unfold runLoop at h
    split at h
    · injection h with h; subst h; exact hc
    · rename_i p rest hw
      exact ih _ s' h
        (derefCovered_propagate { pfg := s.pfg, worklist := rest } p.gProjId _ hc)

/-- C10: every deref-edge record stored by the analysis has a matching
flow edge.  For any run of `alias_analysis` starting from a context whose
graph already satisfies the invariant (in particular the empty graph of
the driver), every deref edge in the resulting graph has its destination
in the source node's neighbor map — the displayed `Option.bind` is
exactly the scrutinee of `check_uaf`'s neighbor lookup, so the `unwrap`
there (`check_uaf`'s error branch) is unreachable. -/
theorem aliasAnalysis_derefEdges_covered (env : Env) (callFuel loopFuel : Nat)
    (c : ACtxt) (entry : CtxtSenCallId) (s : LoopState)
    (hc : DerefCovered c.pfg)
    (h : aliasAnalysis env callFuel loopFuel c entry = some s) :
    ∀ e ∈ s.pfg.derefEdges,
      ((s.pfg.getProjectionNode? e.fromId).bind
        (fun n => lookupA n.neighbors e.toId)).isSome := by
  unfold aliasAnalysis at h
  exact derefCovered_runLoop loopFuel _ s h
    (derefCovered_processCalls env callFuel c [entry] hc)

/-- Witness: the covered-deref-edge theorem applied to a concrete
three-local program (`p = &x; y = *p; drop x`) whose analysis run
records one deref edge. -/
theorem aliasAnalysis_derefEdges_covered_witness :
    DerefCovered c10.pfg ∧
    aliasAnalysis env10 3 20 c10 ⟨0, []⟩ = some sC10 ∧
    eC10 ∈ sC10.pfg.derefEdges ∧
    ((sC10.pfg.getProjectionNode? eC10.fromId).bind
      (fun n => lookupA n.neighbors eC10.toId)).isSome :=
  ⟨by unfold DerefCovered; decide, by decide, by decide,
   aliasAnalysis_derefEdges_covered env10 3 20 c10 ⟨0, []⟩ sC10
     (by unfold DerefCovered; decide) (by decide) eC10 (by decide)⟩

/-! ## Helper lemmas: the diverging run -/

theorem dfp_length (k : Nat) : (dfp k).length = 2 * k := by
  induction k with
  | zero => rfl
  | succ k ih => simp [dfp, ih]; omega

theorem dfp_append (a b : Nat) : dfp (a + b) = dfp a ++ dfp b := by
  induction a with
  | zero =>
    show dfp (0 + b) = [] ++ dfp b
    rw [Nat.zero_add]
    rfl
  | succ a ih =>
    have h : a + 1 + b = (a + b) + 1 := by omega
    rw [h]
    show PlaceElem.deref :: PlaceElem.field 0 :: dfp (a + b) =
      (PlaceElem.deref :: PlaceElem.field 0 :: dfp a) ++ dfp b
    rw [ih]
    rfl

theorem dfp_eq_iff (a b : Nat) : dfp a = dfp b ↔ a = b := by
  constructor
  · intro h
    have := congrArg List.length h
    rw [dfp_length, dfp_length] at this
    omega
  · intro h; rw [h]

theorem projIsPrefixOfB_length : ∀ (p q : List PlaceElem),
    projIsPrefixOfB p q = true → p.length ≤ q.length := by
  intro p
  induction p with
  | nil => intro q _; simp
  | cons a l ih =>
    intro q h
    cases q with
    | nil => exact absurd h (by simp [projIsPrefixOfB])
    | cons b m =>
      unfold projIsPrefixOfB at h
      split at h
      · have := ih m h
        simp
        omega
      · exact absurd h (by simp)

theorem projIsPrefixOfB_nil (q : List PlaceElem) : projIsPrefixOfB [] q = true := rfl

theorem projIsPrefixOfB_dfp_false (a b : Nat) (h : b < a) :
    projIsPrefixOfB (dfp a) (dfp b) = false := by
  cases hp : projIsPrefixOfB (dfp a) (dfp b) with
  | false => rfl
  | true =>
    have := projIsPrefixOfB_length (dfp a) (dfp b) hp
    rw [dfp_length, dfp_length] at this
    omega

theorem lookupA_rangeMap {β : Type} (f : Nat → β) (n j : Nat) :
    lookupA ((List.range n).map (fun i => (i, f i))) j =
      if j < n then some (f j) else none := by
  induction n with
  | zero => simp [lookupA]
  | succ n ih =>
    rw [List.range_succ, List.map_append, lookupA_append]
    rw [ih]
    by_cases hj : j < n
    · rw [if_pos hj, if_pos (by omega)]
    · rw [if_neg hj]
      by_cases hjn : j = n
      · subst hjn
        simp [lookupA]
      · have h1 : ¬ n = j := fun hh => hjn hh.symm
        have h2 : ¬ j < n + 1 := by omega
        simp only [lookupA, if_neg h1, if_neg h2]

theorem getProjectionNode?_bPfg (k j : Nat) :
    (bPfg k).getProjectionNode? (nPid j) =
      if j < k + 1 then some (nNodeB k j) else none := by
  unfold PointerFlowGraph.getProjectionNode? bPfg nPid
  show (lookupA [(xGid, xNodeB),
      (nGid, ⟨nGid, (List.range (k + 1)).map (fun i => (i, nNodeB k i))⟩)] nGid).bind
      (fun n => lookupA n.projectionNodes j) = _
  rw [show lookupA [(xGid, xNodeB),
      (nGid, ⟨nGid, (List.range (k + 1)).map (fun i => (i, nNodeB k i))⟩)] nGid =
      some ⟨nGid, (List.range (k + 1)).map (fun i => (i, nNodeB k i))⟩ from by
    simp [lookupA, xGid, nGid]]
  rw [Option.some_bind]
  exact lookupA_rangeMap (nNodeB k) (k + 1) j

theorem getProjectionNode?_midPfg (k j : Nat) :
    (midPfg k).getProjectionNode? (nPid j) =
      if j < k + 1 then some (nNodeB (k + 1) j) else none := by
  unfold PointerFlowGraph.getProjectionNode? midPfg nPid
  show (lookupA [(xGid, xNodeB),
      (nGid, ⟨nGid, (List.range (k + 1)).map (fun i => (i, nNodeB (k + 1) i))⟩)] nGid).bind
      (fun n => lookupA n.projectionNodes j) = _
  rw [show lookupA [(xGid, xNodeB),
      (nGid, ⟨nGid, (List.range (k + 1)).map (fun i => (i, nNodeB (k + 1) i))⟩)] nGid =
      some ⟨nGid, (List.range (k + 1)).map (fun i => (i, nNodeB (k + 1) i))⟩ from by
    simp [lookupA, xGid, nGid]]
  rw [Option.some_bind]
  exact lookupA_rangeMap (nNodeB (k + 1)) (k + 1) j

theorem updateA_rangeMap_bPfg (k : Nat) :
    updateA ((List.range (k + 1)).map (fun i => (i, nNodeB k i))) k
      (fun pn => { pn with pointsTo := extendSet pn.pointsTo [oId] }) =
      (List.range (k + 1)).map (fun i => (i, nNodeB (k + 1) i)) := by
  unfold updateA
  rw [List.map_map]
  apply List.map_congr_left
  intro i hi
  rw [List.mem_range] at hi
  simp only [Function.comp]
  by_cases hik : i = k
  · rw [if_pos hik]
    subst hik
    unfold nNodeB
    dsimp only
    rw [if_neg (by omega : ¬ i < i), if_pos (by omega : i < i + 1)]
    simp [extendSet, insertSet]
  · rw [if_neg hik]
    have hlt : i < k := by omega
    unfold nNodeB
    rw [if_pos hlt, if_pos (by omega : i < k + 1)]

theorem updateProjNode_bPfg (k : Nat) :
    updateProjNode (bPfg k) (nPid k)
      (fun pn => { pn with pointsTo := extendSet pn.pointsTo [oId] }) =
      midPfg k := by
  unfold updateProjNode bPfg midPfg nPid
  unfold updateA
  rw [List.map_cons, List.map_cons, List.map_nil]
  dsimp only
  rw [if_neg (by decide : ¬ xGid = nGid), if_pos rfl]
  have h := updateA_rangeMap_bPfg k
  unfold updateA at h
  rw [h]

theorem find?_rangeMap_none (k : Nat) :
    List.find?
      (fun p => decide (p.2.projection = dfp (k + 1) ∧ p.2.callerContext = []))
      ((List.range (k + 1)).map (fun i => (i, nNodeB (k + 1) i))) = none := by
  rw [List.find?_eq_none]
  intro x hx
  rw [List.mem_map] at hx
  obtain ⟨i, hi, rfl⟩ := hx
  rw [List.mem_range] at hi
  simp only [decide_eq_true_eq, not_and]
  intro hcon
  have := (dfp_eq_iff i (k + 1)).mp hcon
  omega

theorem addVirtual_midPfg (k : Nat) :
    (midPfg k).addOrUpdateVirtualNode ⟨0, []⟩ 2 (dfp (k + 1)) none =
      (bPfg (k + 1), nPid (k + 1)) := by
  have hlook : lookupA (midPfg k).nodes (⟨0, 2⟩ : GlobalLocalId) =
      some ⟨nGid, (List.range (k + 1)).map (fun i => (i, nNodeB (k + 1) i))⟩ := by
    show lookupA [(xGid, xNodeB),
      (nGid, ⟨nGid, (List.range (k + 1)).map (fun i => (i, nNodeB (k + 1) i))⟩)]
      (⟨0, 2⟩ : GlobalLocalId) = _
    simp [lookupA, xGid, nGid]
  unfold PointerFlowGraph.addOrUpdateVirtualNode
  dsimp only
  simp only [hlook, Option.isSome_some, if_true]
  unfold PfgNode.getOrAddProjection PfgNode.tryGetProjectionId
  dsimp only
  rw [find?_rangeMap_none k]
  simp only [Option.map_none']
  unfold PfgNode.addProjection
  dsimp only
  rw [List.length_map, List.length_range]
  rw [show ∀ (nd : PfgNode) (pid : ProjectionId), nd.addDropSpanTo pid none = nd
    from fun nd pid => rfl]
  have hmk : nNodeB (k + 1) (k + 1) =
      ⟨k + 1, [], dfp (k + 1), [], [], []⟩ := by
    unfold nNodeB
    rw [if_neg (by omega : ¬ k + 1 < k + 1), if_neg (by omega : ¬ k + 1 = 0)]
  have hpn : List.map (fun i => (i, nNodeB (k + 1) i)) (List.range (k + 2)) =
      List.map (fun i => (i, nNodeB (k + 1) i)) (List.range (k + 1)) ++
        [(k + 1, ⟨k + 1, [], dfp (k + 1), [], [], []⟩)] := by
    rw [List.range_succ, List.map_append, List.map_cons, List.map_nil, hmk]
  have hins : insertKV (midPfg k).nodes (⟨0, 2⟩ : GlobalLocalId)
      (⟨nGid, List.map (fun i => (i, nNodeB (k + 1) i)) (List.range (k + 1)) ++
        [(k + 1, ⟨k + 1, [], dfp (k + 1), [], [], []⟩)]⟩ : PfgNode) =
      [(xGid, xNodeB),
       (nGid, ⟨nGid, List.map (fun i => (i, nNodeB (k + 1) i)) (List.range (k + 2))⟩)] := by
    unfold insertKV
    rw [hlook]
    simp only [Option.isSome_some, if_true]
    show updateA [(xGid, xNodeB),
      (nGid, ⟨nGid, List.map (fun i => (i, nNodeB (k + 1) i)) (List.range (k + 1))⟩)]
      (⟨0, 2⟩ : GlobalLocalId) _ = _
    unfold updateA
    rw [List.map_cons, List.map_cons, List.map_nil]
    rw [if_neg (by decide : ¬ (xGid = (⟨0, 2⟩ : GlobalLocalId))),
      if_pos (by decide : nGid = (⟨0, 2⟩ : GlobalLocalId))]
    rw [hpn]
  rw [hins]
  unfold bPfg nPid midPfg
  rfl

theorem loopBody_bState (k : Nat) (hk : 1 ≤ k) :
    loopBody ⟨bPfg k, []⟩ ⟨nPid k, [oId]⟩ = bState (k + 1) := by
  unfold loopBody deltaOf
  dsimp only
  have hpts : ptsOf (bPfg k) (nPid k) = [] := by
    unfold ptsOf
    rw [getProjectionNode?_bPfg k k, if_pos (by omega : k < k + 1)]
    unfold nNodeB
    dsimp only
    rw [if_neg (by omega : ¬ k < k)]
  rw [hpts]
  rw [show diffSet [oId] [] = [oId] from rfl]
  unfold propagate
  rw [if_neg (by simp : ¬ ([oId] : List DropObjectId) = [])]
  dsimp only
  rw [updateProjNode_bPfg k]
  simp only [getProjectionNode?_midPfg k k, if_pos (by omega : k < k + 1)]
  have hcsd : (nNodeB (k + 1) k).csDropSpans = [] := rfl
  have hni : ¬ ((nNodeB (k + 1) k).csDropSpans ≠ [] ∧
      nPid k ∉ (midPfg k).multiDropObjects ∧
      1 < (nNodeB (k + 1) k).pointsTo.length) := fun h => h.1 hcsd
  rw [if_neg hni]
  have hlookN : lookupA (midPfg k).nodes (nPid k).gLocalId =
      some ⟨nGid, List.map (fun i => (i, nNodeB (k + 1) i)) (List.range (k + 1))⟩ := by
    show lookupA [(xGid, xNodeB),
      (nGid, ⟨nGid, List.map (fun i => (i, nNodeB (k + 1) i)) (List.range (k + 1))⟩)]
      nGid = _
    simp [lookupA, xGid, nGid]
  simp only [hlookN]
  have hsubPush : List.filterMap
      (fun p =>
        if p.1 ≠ (nPid k).projectionId ∧
            (nNodeB (k + 1) k).callerContext = p.2.callerContext ∧
            projIsPrefixOfB (nNodeB (k + 1) k).projection p.2.projection = true then
          some (⟨⟨(nPid k).gLocalId, p.1⟩, [oId]⟩ : PointsTo)
        else none)
      (List.map (fun i => (i, nNodeB (k + 1) i)) (List.range (k + 1))) = [] := by
    rw [List.filterMap_eq_nil_iff]
    intro p hp
    rw [List.mem_map] at hp
    obtain ⟨i, hi, rfl⟩ := hp
    rw [List.mem_range] at hi
    rw [if_neg]
    intro hcon
    obtain ⟨h1, _, h3⟩ := hcon
    have hik : i ≠ k := fun hh => h1 (by rw [hh]; exact rfl)
    have hlt : i < k := Nat.lt_of_le_of_ne (Nat.lt_succ_iff.mp hi) hik
    have hpf : projIsPrefixOfB (dfp k) (dfp i) = false :=
      projIsPrefixOfB_dfp_false k i hlt
    rw [show (nNodeB (k + 1) k).projection = dfp k from rfl,
        show (nNodeB (k + 1) i).projection = dfp i from rfl, hpf] at h3
    exact Bool.false_ne_true h3
  have hdfp1 : dfp 1 ++ dfp k = dfp (k + 1) := by
    rw [← dfp_append 1 k]
    congr 1
    omega
  have hlocal : (List.map (fun i => (i, nNodeB (k + 1) i)) (List.range (k + 1))).flatMap
      (fun p =>
        if (nNodeB (k + 1) k).callerContext = p.2.callerContext ∧
            projIsPrefixOfB p.2.projection (nNodeB (k + 1) k).projection = true then
          List.filterMap
            (fun nb =>
              Option.map
                (fun nbPn =>
                  ((⟨nb.1.gLocalId.defId, nbPn.callerContext⟩ : CtxtSenCallId), nb.1.gLocalId,
                    nbPn.projection ++ List.drop p.2.projection.length (nNodeB (k + 1) k).projection))
                ((midPfg k).getProjectionNode? nb.1))
            p.2.neighbors
        else [])
      = [(⟨0, []⟩, nGid, dfp (k + 1))] := by
    rw [List.range_succ_eq_map, List.map_cons, List.flatMap_cons, List.map_map]
    have htail : ((List.range k).map
        ((fun i => (i, nNodeB (k + 1) i)) ∘ Nat.succ)).flatMap
        (fun p =>
          if (nNodeB (k + 1) k).callerContext = p.2.callerContext ∧
              projIsPrefixOfB p.2.projection (nNodeB (k + 1) k).projection = true then
            List.filterMap
              (fun nb =>
                Option.map
                  (fun nbPn =>
                    ((⟨nb.1.gLocalId.defId, nbPn.callerContext⟩ : CtxtSenCallId), nb.1.gLocalId,
                      nbPn.projection ++ List.drop p.2.projection.length (nNodeB (k + 1) k).projection))
                  ((midPfg k).getProjectionNode? nb.1))
              p.2.neighbors
          else []) = [] := by
      rw [List.flatMap_eq_nil_iff]
      intro x hx
      rw [List.mem_map] at hx
      obtain ⟨j, hj, rfl⟩ := hx
      simp only [Function.comp]
      have hnb : (nNodeB (k + 1) (j + 1)).neighbors = [] := by
        unfold nNodeB
        dsimp only
        rw [if_neg (by omega : ¬ j + 1 = 0)]
      rw [hnb]
      split
      · rfl
      · rfl
    rw [htail, List.append_nil]
    rw [if_pos (⟨rfl, rfl⟩ : (nNodeB (k + 1) k).callerContext =
        (nNodeB (k + 1) 0).callerContext ∧
        projIsPrefixOfB (nNodeB (k + 1) 0).projection
          (nNodeB (k + 1) k).projection = true)]
    rw [show (nNodeB (k + 1) 0).neighbors =
        [(nPid 1, ⟨nPid 1, ⟨0, 0, 11, []⟩⟩)] from rfl]
    rw [List.filterMap_cons, List.filterMap_nil]
    rw [show ((midPfg k).getProjectionNode? (nPid 1)) =
        if 1 < k + 1 then some (nNodeB (k + 1) 1) else none
      from getProjectionNode?_midPfg k 1]
    rw [if_pos (by omega : 1 < k + 1)]
    simp only [Option.map_some']
    rw [show (nNodeB (k + 1) 1).projection = dfp 1 from rfl,
        show (nNodeB (k + 1) 0).projection.length = 0 from rfl,
        show (nNodeB (k + 1) k).projection = dfp k from rfl,
        List.drop_zero, hdfp1]
    rfl
  rw [hsubPush, hlocal]
  rw [List.foldl_cons, List.foldl_nil]
  dsimp only [nGid]
  rw [addVirtual_midPfg k]
  dsimp only
  unfold bState
  simp

theorem runLoop_bState_none (fuel : Nat) :
    ∀ (k : Nat), 1 ≤ k → runLoop fuel (bState k) = none := by
  induction fuel with
  | zero =>
    intro k hk
    rfl
  | succ f ih =>
    intro k hk
    show runLoop f (loopBody ⟨bPfg k, []⟩ ⟨nPid k, [oId]⟩) = none
    rw [loopBody_bState k hk]
    exact ih (k + 1) (by omega)

theorem runLoop_succ_stepB (f : Nat) (s : LoopState) (h : s.worklist ≠ []) :
    runLoop (f + 1) s = runLoop f (stepB s) := by
  cases hw : s.worklist with
  | nil => exact absurd hw h
  | cons p rest =>
    have hs2 : s = ⟨s.pfg, p :: rest⟩ := by
      rw [← hw]
    rw [hs2]
    exact rfl

theorem runLoop_sB0_none (f : Nat) : runLoop f sB0 = none := by
  have h3 : ∀ g, runLoop g sB3 = none := by
    intro g
    cases g with
    | zero => decide
    | succ g =>
      rw [runLoop_succ_stepB g sB3 (by decide)]
      rw [show stepB sB3 = bState 2 from by decide]
      exact runLoop_bState_none g 2 (by omega)
  have h2 : ∀ g, runLoop g sB2 = none := by
    intro g
    cases g with
    | zero => decide
    | succ g =>
      rw [runLoop_succ_stepB g sB2 (by decide)]
      exact h3 g
  have h1 : ∀ g, runLoop g sB1 = none := by
    intro g
    cases g with
    | zero => decide
    | succ g =>
      rw [runLoop_succ_stepB g sB1 (by decide)]
      exact h2 g
  cases f with
  | zero => decide
  | succ f =>
    rw [runLoop_succ_stepB f sB0 (by decide)]
    exact h1 f

/-- C7: the specification claims the worklist fixpoint loop terminates on
every input because the abstract domain is finite; it does not.  On the
program `n = &x; (*n).next = n; drop x` (`badCfg`), the self-referential
pointer write yields the flow edge `(n, []) → (n, [Deref, Field 0])`, and
same-level diffusion materializes the fresh virtual cell
`(n, [Deref, Field 0]^(k+1))` at every pop of `(n, [Deref, Field 0]^k)`,
so the node domain grows without bound and the worklist never empties:
for every fuel bound, `alias_analysis` is still running. -/
theorem aliasAnalysis_diverges_on_badCfg (loopFuel : Nat) :
    aliasAnalysis badEnv 1 loopFuel badC0 badEntry = none := by
  show runLoop loopFuel ⟨(processCalls badEnv 1 badC0 [badEntry]).pfg,
    (processCalls badEnv 1 badC0 [badEntry]).worklist⟩ = none
  exact runLoop_sB0_none loopFuel
